import Mathlib

/-!
Shallow embedding of the LOOM topology kernel (repository `jaysalomon/LOOM`).

Two implementations are modelled from the C sources:
  * `src/esp32/loom_esp32_kernel.c` (+ `src/kernel/esp32/loom_esp32_kernel.h`):
    the 32-dimensional ESP32 port (`esp32_loom_*` definitions below);
  * `src/kernel/src/loom_kernel.c` (+ `src/kernel/src/loom_kernel.h`):
    the 256-dimensional generic kernel (`loom_*` definitions below).

Float arithmetic is embedded as exact real arithmetic; C arrays are embedded
as total functions `ℕ → _` together with the explicit element counts that the
C structs carry; the ESP32 `esp_random()` stream and the libc `rand()` stream
are abstracted as environment-supplied real-number streams, and the bit-level
reinterpretation of the 32-bit hash as two half-precision floats is abstracted
as an environment-supplied pair of reals.  Machine-integer arithmetic on the
djb2 hash is modelled with explicit `% 2 ^ 32`.
-/

noncomputable section

namespace Loom

/-! ## ESP32 model: constants (loom_esp32_kernel.h) -/

/-- A 32-float node vector (`Esp32NodeVector.components`); indices ≥ 32 are unused padding. -/
abbrev Vec32 := ℕ → ℝ

namespace E

def ESP32_NODE_DIMENSIONS : ℕ := 32

def ESP32_MAX_NODES : ℕ := 512

def ESP32_MAX_EDGES : ℕ := 2048

def ESP32_MAX_HYPEREDGES : ℕ := 128

def VEC_IDENTITY : ℕ := 0

def VEC_SEMANTIC : ℕ := 4

def VEC_ACTIVATION : ℕ := 20

def VEC_CONNECTIONS : ℕ := 24

def VEC_EMOTIONAL : ℕ := 28

def PROCESSOR_AND : ℕ := 0

def PROCESSOR_OR : ℕ := 1

def PROCESSOR_XOR : ℕ := 2

def PROCESSOR_THRESHOLD : ℕ := 3

def PROCESSOR_RESONANCE : ℕ := 4

def EDGE_FLAG_BIDIRECTIONAL : ℕ := 1

def EDGE_FLAG_TEMPORARY : ℕ := 2

end E

/-- `#define ACTIVATION_THRESHOLD 0.1f` (loom_esp32_kernel.c). -/
def ACTIVATION_THRESHOLD : ℝ := 0.1

/-- `#define LEARNING_RATE 0.01f` (loom_esp32_kernel.c). -/
def LEARNING_RATE : ℝ := 0.01

/-- `#define MAX_VECTOR_MAGNITUDE 1.0f` (loom_esp32_kernel.c). -/
def MAX_VECTOR_MAGNITUDE : ℝ := 1

/-- `Esp32Edge`: target node index, `int8_t` quantized weight, flag byte.
The C struct stores no source node. -/
structure Esp32Edge where
  target : ℕ
  weight : ℤ
  flags : ℕ
deriving DecidableEq

/-- `Esp32Hyperedge`: the `participants[6]` array together with
`num_participants` is modelled as a list (`participants.length` plays the role
of `num_participants`). -/
structure Esp32Hyperedge where
  participants : List ℕ
  processor_type : ℕ
  processor_state : ℝ
  activation_count : ℕ

/-- `Esp32LoomTopology` restricted to the fields the modelled operations touch
or read (nodes, edges, hyperedges and their counters). -/
structure Esp32LoomTopology where
  nodes : ℕ → Vec32
  edges : ℕ → Esp32Edge
  hyperedges : ℕ → Esp32Hyperedge
  num_nodes : ℕ
  num_edges : ℕ
  num_hyperedges : ℕ

/-- `esp_err_t` outcomes used by the modelled functions. -/
inductive EspErr where
  | espOk
  | espErrNoMem
  | espErrInvalidArg
deriving DecidableEq

/-- Write component `i` of node `n` in a node store. -/
def updComp (s : ℕ → Vec32) (n i : ℕ) (x : ℝ) : ℕ → Vec32 :=
  Function.update s n (Function.update (s n) i x)

/-- Squared magnitude accumulated by `esp32_loom_normalize_vector`. -/
def esp32NormSq (v : Vec32) : ℝ :=
  ∑ i ∈ Finset.range E.ESP32_NODE_DIMENSIONS, v i * v i

/-- `esp32_loom_normalize_vector`: divide by the magnitude when it is `> 0`. -/
def esp32_loom_normalize_vector (v : Vec32) : Vec32 :=
  let magnitude := Real.sqrt (esp32NormSq v)
  if 0 < magnitude then fun i => v i / magnitude else v

/-- djb2 hash (`loom_hash_string` / `esp32_loom_hash_string`, identical code);
the identifier is a list of character codes, `uint32_t` overflow is `% 2 ^ 32`. -/
def loom_hash_string (s : List ℕ) : ℕ :=
  s.foldl (fun hash c => (hash * 33 + c) % 2 ^ 32) 5381

/-- `esp32_loom_hash_string` has the same body as `loom_hash_string`. -/
def esp32_loom_hash_string (s : List ℕ) : ℕ := loom_hash_string s

/-- One index of the emotional-resonance loop of `esp32_loom_hebbian_update_pair`:
`resonance` is read before either write, and the write to `vec_b` reads the
already-updated `vec_a` (the store-passing makes this exact, also when the two
node ids alias). -/
def esp32EmoStep (s : ℕ → Vec32) (a b : ℕ) (rate : ℝ) (i : ℕ) : ℕ → Vec32 :=
  let resonance := s a i * s b i
  if 0 < resonance then
    let s1 := updComp s a i (s a i + s b i * rate * 0.05)
    updComp s1 b i (s1 b i + s1 a i * rate * 0.05)
  else s

/-- `esp32_loom_hebbian_update_pair`.  The C semantic loop precomputes
`diff = vec_b[i] - vec_a[i]` and then writes `vec_a[i]` and `vec_b[i]`; each
iteration touches only index `i` of the two records, so the loop equals the
two pointwise record updates below (also when `node_a == node_b`, where `diff`
is 0 and both writes are no-ops).  The emotional loop and the two
normalizations are sequential store updates. -/
def esp32_loom_hebbian_update_pair (t : Esp32LoomTopology) (node_a node_b : ℕ)
    (rate : ℝ) : Esp32LoomTopology :=
  let s0 := t.nodes
  let semA : Vec32 := fun i =>
    if E.VEC_SEMANTIC ≤ i ∧ i < E.VEC_SEMANTIC + 16 then
      s0 node_a i + (s0 node_b i - s0 node_a i) * rate * 0.1
    else s0 node_a i
  let semB : Vec32 := fun i =>
    if E.VEC_SEMANTIC ≤ i ∧ i < E.VEC_SEMANTIC + 16 then
      s0 node_b i - (s0 node_b i - s0 node_a i) * rate * 0.1
    else s0 node_b i
  let s2 := Function.update (Function.update s0 node_a semA) node_b semB
  let s3 := (List.range 4).foldl
    (fun s k => esp32EmoStep s node_a node_b rate (E.VEC_EMOTIONAL + k)) s2
  let s4 := Function.update s3 node_a (esp32_loom_normalize_vector (s3 node_a))
  let s5 := Function.update s4 node_b (esp32_loom_normalize_vector (s4 node_b))
  { t with nodes := s5 }

/-- C cast `(int8_t)(x)` of a float in range: truncation toward zero. -/
def int8OfReal (x : ℝ) : ℤ :=
  if 0 ≤ x then ⌊x⌋ else -⌊-x⌋

/-- `(int8_t)(weight * 127.0f)` as used by `esp32_loom_create_edge`. -/
def quantizeWeight (w : ℝ) : ℤ := int8OfReal (w * 127)

/-- The existing-edge scan of `esp32_loom_create_edge`: the first index
`i < num_edges` with `edges[i].target == target` (the scan ignores the source,
which the `Esp32Edge` struct does not store). -/
def esp32FindEdge (edges : ℕ → Esp32Edge) (num_edges target : ℕ) : Option ℕ :=
  (List.range num_edges).find? (fun i => (edges i).target == target)

/-- `esp32_loom_create_edge`. -/
def esp32_loom_create_edge (t : Esp32LoomTopology) (source target : ℕ)
    (weight : ℝ) (flags : ℕ) : EspErr × Esp32LoomTopology :=
  if E.ESP32_MAX_EDGES ≤ t.num_edges then (EspErr.espErrNoMem, t)
  else if t.num_nodes ≤ source ∨ t.num_nodes ≤ target then (EspErr.espErrInvalidArg, t)
  else
    match esp32FindEdge t.edges t.num_edges target with
    | some i =>
        let updated : Esp32Edge :=
          { target := (t.edges i).target, weight := quantizeWeight weight, flags := flags }
        (EspErr.espOk, { t with edges := Function.update t.edges i updated })
    | none =>
        let fresh : Esp32Edge :=
          { target := target, weight := quantizeWeight weight, flags := flags }
        (EspErr.espOk,
          { t with edges := Function.update t.edges t.num_edges fresh,
                   num_edges := t.num_edges + 1 })

/-- `esp32_loom_create_bidirectional`: two directed edges, early return on
either failure, then one Hebbian pull at `weight * 0.1f`. -/
def esp32_loom_create_bidirectional (t : Esp32LoomTopology) (a b : ℕ)
    (weight : ℝ) : EspErr × Esp32LoomTopology :=
  let r1 := esp32_loom_create_edge t a b weight E.EDGE_FLAG_BIDIRECTIONAL
  if r1.1 ≠ EspErr.espOk then r1
  else
    let r2 := esp32_loom_create_edge r1.2 b a weight E.EDGE_FLAG_BIDIRECTIONAL
    if r2.1 ≠ EspErr.espOk then r2
    else (EspErr.espOk, esp32_loom_hebbian_update_pair r2.2 a b (weight * 0.1))

/-- `esp32_loom_create_hyperedge`; the C failure code `0xFF` is `none`.
The switch on the processor type sets state `0.5` for `PROCESSOR_RESONANCE`
and `0` for every other type. -/
def esp32_loom_create_hyperedge (t : Esp32LoomTopology) (participants : List ℕ)
    (processor_type : ℕ) : Option ℕ × Esp32LoomTopology :=
  if E.ESP32_MAX_HYPEREDGES ≤ t.num_hyperedges ∨ 6 < participants.length then (none, t)
  else
    let hyperedge_id := t.num_hyperedges
    let st : ℝ := if processor_type = E.PROCESSOR_RESONANCE then 0.5 else 0
    (some hyperedge_id,
      { t with
          hyperedges := Function.update t.hyperedges hyperedge_id
            ({ participants := participants, processor_type := processor_type,
               processor_state := st, activation_count := 0 }),
          num_hyperedges := hyperedge_id + 1 })

/-- `esp32_loom_initialize_vector` (name shortened for the identifier rules):
identity from the hash, semantic dimensions from the Box–Muller expression on
the random stream, activation and emotional zones zeroed, connection weights
from the random stream, then normalization.  `rand k` abstracts the `k`-th
`esp_random()` draw scaled as in the source. -/
def esp32_loom_init_vector (hash : ℕ) (rand : ℕ → ℝ) : Vec32 :=
  let v : Vec32 := fun i =>
    if i < E.VEC_SEMANTIC then ((hash % 1000 : ℕ) : ℝ) / 500 - 1
    else if i < E.VEC_SEMANTIC + 16 then
      Real.sqrt (-2 * Real.log (rand (2 * i))) * Real.cos (2 * Real.pi * rand (2 * i + 1)) *
        Real.sqrt (2 / 16)
    else if i < E.VEC_ACTIVATION + 4 then 0
    else if i < E.VEC_CONNECTIONS + 4 then rand (64 + i)
    else if i < E.VEC_EMOTIONAL + 4 then 0
    else 0
  esp32_loom_normalize_vector v

/-- `esp32_loom_weave_node`; the C failure code `0xFFFF` is `none`. -/
def esp32_loom_weave_node (t : Esp32LoomTopology) (identifier : List ℕ)
    (rand : ℕ → ℝ) : Option ℕ × Esp32LoomTopology :=
  if E.ESP32_MAX_NODES ≤ t.num_nodes then (none, t)
  else
    let node_id := t.num_nodes
    let hash := esp32_loom_hash_string identifier
    (some node_id,
      { t with
          num_nodes := node_id + 1,
          nodes := Function.update t.nodes node_id (esp32_loom_init_vector hash rand) })

/-- Activation of a node: `components[VEC_ACTIVATION]`. -/
def esp32Activation (t : Esp32LoomTopology) (node_id : ℕ) : ℝ :=
  t.nodes node_id E.VEC_ACTIVATION

/-- The accumulation loop and switch of `esp32_loom_compute_hyperedge`,
as a function of the processor type and the participant activations. -/
def esp32HyperedgeNewState (processor_type : ℕ) (acts : List ℝ) : ℝ :=
  let activation_sum := acts.foldl (· + ·) 0
  let max_activation := acts.foldl max 0
  let active_count := (acts.filter (fun a => decide (ACTIVATION_THRESHOLD < a))).length
  let average_activation := activation_sum / (acts.length : ℝ)
  if processor_type = E.PROCESSOR_AND then
    if active_count = acts.length then average_activation else 0
  else if processor_type = E.PROCESSOR_OR then
    if 0 < active_count then max_activation else 0
  else if processor_type = E.PROCESSOR_RESONANCE then
    min (average_activation * (1 + (active_count : ℝ) * 0.1)) MAX_VECTOR_MAGNITUDE
  else if processor_type = E.PROCESSOR_THRESHOLD then
    if 2 ≤ active_count then average_activation else 0
  else average_activation

/-- `esp32_loom_compute_hyperedge`: smoothing `0.9 * old + 0.1 * new`, and,
when the smoothed state exceeds the activation threshold, the usage counter
increments and the nested back-propagation loops run
`esp32_loom_hebbian_update_pair` on every ordered pair `i ≠ j` of participant
positions at rate `processor_state * 0.01`. -/
def esp32_loom_compute_hyperedge (t : Esp32LoomTopology) (hyperedge_id : ℕ) :
    Esp32LoomTopology :=
  let hedge := t.hyperedges hyperedge_id
  let n := hedge.participants.length
  let acts := hedge.participants.map (esp32Activation t)
  let new_state := esp32HyperedgeNewState hedge.processor_type acts
  let state' := hedge.processor_state * 0.9 + new_state * 0.1
  if ACTIVATION_THRESHOLD < state' then
    let t2 := { t with
      hyperedges := Function.update t.hyperedges hyperedge_id
        ({ hedge with processor_state := state',
                      activation_count := hedge.activation_count + 1 }) }
    (List.range n).foldl (fun u i =>
      (List.range n).foldl (fun u' j =>
        if i ≠ j then
          esp32_loom_hebbian_update_pair u' (hedge.participants.getD i 0)
            (hedge.participants.getD j 0) (state' * 0.01)
        else u') u) t2
  else
    { t with
      hyperedges := Function.update t.hyperedges hyperedge_id
        ({ hedge with processor_state := state' }) }

/-- The participant activations read by `esp32_loom_compute_hyperedge`. -/
def esp32HedgeActs (t : Esp32LoomTopology) (hid : ℕ) : List ℝ :=
  (t.hyperedges hid).participants.map (esp32Activation t)

/-- The raw `new_state` computed by `esp32_loom_compute_hyperedge`. -/
def esp32HedgeNewState (t : Esp32LoomTopology) (hid : ℕ) : ℝ :=
  esp32HyperedgeNewState (t.hyperedges hid).processor_type (esp32HedgeActs t hid)

/-- The smoothed state `0.9*old + 0.1*new` written by
`esp32_loom_compute_hyperedge`. -/
def esp32HedgeSmoothed (t : Esp32LoomTopology) (hid : ℕ) : ℝ :=
  (t.hyperedges hid).processor_state * 0.9 + esp32HedgeNewState t hid * 0.1

/-- Claim-side formulation: the ordered pairs of distinct participant
positions, in the row-major order of the two nested loops of
`esp32_loom_compute_hyperedge`. -/
def specOrderedPairs (n : ℕ) : List (ℕ × ℕ) :=
  (List.range n).flatMap fun i => ((List.range n).filter fun j => i != j).map fun j => (i, j)

/-- The edge-summation loop of `esp32_loom_compute_activation_dynamics`,
over the given node store: every edge of the topology contributes
`activation(target) * (weight / 127)`. -/
def esp32EdgeInputSum (t : Esp32LoomTopology) (s : ℕ → Vec32) : ℝ :=
  (List.range t.num_edges).foldl
    (fun acc e => acc + s (t.edges e).target E.VEC_ACTIVATION * (((t.edges e).weight : ℝ) / 127))
    0

/-- One node of `esp32_loom_compute_activation_dynamics`: `connection_count`
ends at `num_edges` (it increments once per edge), so the node is updated
exactly when the topology has any edge. -/
def esp32ActStep (t : Esp32LoomTopology) (s : ℕ → Vec32) (i : ℕ) : ℕ → Vec32 :=
  if 0 < t.num_edges then
    let total_input := esp32EdgeInputSum t s
    let new_activation :=
      s i E.VEC_ACTIVATION * 0.9 + total_input / (t.num_edges : ℝ) * 0.1
    updComp s i E.VEC_ACTIVATION (max 0 (min 1 new_activation))
  else s

/-- `esp32_loom_compute_activation_dynamics`: in-place sequential loop over the
nodes (later nodes read the already-updated activations of earlier ones). -/
def esp32_loom_compute_activation_dynamics (t : Esp32LoomTopology) :
    Esp32LoomTopology :=
  { t with nodes := (List.range t.num_nodes).foldl (esp32ActStep t) t.nodes }

/-- The node store of `esp32_loom_compute_activation_dynamics` after the
first `i` nodes have been processed. -/
def esp32ActUpTo (t : Esp32LoomTopology) (i : ℕ) : ℕ → Vec32 :=
  (List.range i).foldl (esp32ActStep t) t.nodes

/-- Total node activity summed by `esp32_loom_compute_emergence`. -/
def esp32NodeActivity (t : Esp32LoomTopology) : ℝ :=
  (List.range t.num_nodes).foldl (fun acc i => acc + esp32Activation t i) 0

/-- Total hyperedge activity summed by `esp32_loom_compute_emergence`. -/
def esp32HyperedgeActivity (t : Esp32LoomTopology) : ℝ :=
  (List.range t.num_hyperedges).foldl (fun acc i => acc + (t.hyperedges i).processor_state) 0

/-- `esp32_loom_compute_emergence`: the ratio is taken only when the node
activity is strictly positive, otherwise the result is `0`. -/
def esp32_loom_compute_emergence (t : Esp32LoomTopology) : ℝ :=
  if 0 < esp32NodeActivity t then esp32HyperedgeActivity t / esp32NodeActivity t
  else 0

/-! ## Generic kernel model: constants (loom_kernel.h) -/

/-- A 256-float16 node vector (`NodeVector.components`); indices ≥ 256 are unused padding. -/
abbrev Vec256 := ℕ → ℝ

namespace K

def LOOM_NODE_DIMENSIONS : ℕ := 256

def LOOM_MAX_NODES : ℕ := 100000000

def LOOM_MAX_HYPEREDGES : ℕ := 10000000

def VEC_IDENTITY : ℕ := 0

def VEC_HYPERBOLIC : ℕ := 4

def VEC_SEMANTIC : ℕ := 20

def VEC_ACTIVATION : ℕ := 84

def VEC_CONNECTIONS : ℕ := 148

def VEC_EMOTIONAL : ℕ := 212

def VEC_METADATA : ℕ := 244

end K

/-- `#define GOLDEN_RATIO 1.618033988749895` (loom_kernel.c; name shortened
for the identifier rules). -/
def golden : ℝ := 1.618033988749895

/-- `CSRMatrix`: row pointers, column indices and weight values as total
functions with the edge count; `num_nodes` is the (never-updated) struct
field of the C code. -/
structure CSRMatrix where
  row_ptr : ℕ → ℕ
  col_idx : ℕ → ℕ
  values : ℕ → ℝ
  num_nodes : ℕ
  num_edges : ℕ

/-- Kernel `Hyperedge`: participant ids and the 128-float processor vector. -/
structure Hyperedge where
  id : ℕ
  participants : List ℕ
  processor_vector : ℕ → ℝ

/-- `HormonalContext` of the generic kernel. -/
structure HormonalContext where
  legacy_drive : ℝ
  stress_hormone : ℝ
  curiosity_factor : ℝ
  satisfaction : ℝ

/-- Kernel `Trajectory` reduced to the fields the spec-modelled evolution
phase uses (see `loom_apply_trajectory_evolution`). -/
structure Trajectory where
  node_id : ℕ
  target : ℝ
  lambda : ℝ

/-- `LoomTopology` restricted to the fields the modelled operations touch. -/
structure LoomTopology where
  node_bank : ℕ → Vec256
  edge_matrix : CSRMatrix
  hyperedges : ℕ → Hyperedge
  hormones : HormonalContext
  active_trajectories : List Trajectory
  num_nodes : ℕ
  num_hyperedges : ℕ

/-- Write component `i` of node `n` in a kernel node store. -/
def updComp256 (s : ℕ → Vec256) (n i : ℕ) (x : ℝ) : ℕ → Vec256 :=
  Function.update s n (Function.update (s n) i x)

/-- Squared magnitude accumulated by `loom_normalize_vector`. -/
def loomNormSq (v : Vec256) : ℝ :=
  ∑ i ∈ Finset.range K.LOOM_NODE_DIMENSIONS, v i * v i

/-- `loom_normalize_vector`: divide by the magnitude when it is `> 0`. -/
def loom_normalize_vector (v : Vec256) : Vec256 :=
  let magnitude := Real.sqrt (loomNormSq v)
  if 0 < magnitude then fun i => v i / magnitude else v

/-- Squared radius of a 16-float hyperbolic block. -/
def hypBlockSq (h : ℕ → ℝ) : ℝ :=
  ∑ i ∈ Finset.range 16, h i * h i

/-- `loom_project_to_poincare` on a 16-float hyperbolic block: when the radius
reaches or exceeds `0.99`, uniformly rescale by `0.99 / radius`. -/
def loom_project_to_poincare (h : ℕ → ℝ) : ℕ → ℝ :=
  let radius := Real.sqrt (hypBlockSq h)
  if 0.99 ≤ radius then fun i => if i < 16 then h i * (0.99 / radius) else h i
  else h

/-- The hyperbolic 16-float block of a kernel node vector,
`&vector->components[VEC_HYPERBOLIC]`. -/
def hypBlock (v : Vec256) : ℕ → ℝ := fun i => v (K.VEC_HYPERBOLIC + i)

/-- Write a projected hyperbolic block back into a node vector. -/
def withHypBlock (v : Vec256) (h : ℕ → ℝ) : Vec256 := fun j =>
  if K.VEC_HYPERBOLIC ≤ j ∧ j < K.VEC_HYPERBOLIC + 16 then h (j - K.VEC_HYPERBOLIC) else v j

/-- Squared hyperbolic radius of a node vector (the `r_a`/`r_b` accumulation
inside `loom_apply_hebbian_learning`). -/
def kernHypSumSq (v : Vec256) : ℝ := hypBlockSq (hypBlock v)

/-- The semantic-zone loop of `loom_apply_hebbian_learning` (dimensions
20–83): `gradient = rate * 0.1 * diff` with `diff` precomputed per index, so
the loop equals the two pointwise record updates (exact also under aliasing,
where `diff = 0`). -/
def kernSemStage (s : ℕ → Vec256) (a b : ℕ) (rate : ℝ) : ℕ → Vec256 :=
  let va : Vec256 := fun i =>
    if K.VEC_SEMANTIC ≤ i ∧ i < K.VEC_SEMANTIC + 64 then
      s a i + rate * 0.1 * (s b i - s a i)
    else s a i
  let vb : Vec256 := fun i =>
    if K.VEC_SEMANTIC ≤ i ∧ i < K.VEC_SEMANTIC + 64 then
      s b i - rate * 0.1 * (s b i - s a i)
    else s b i
  Function.update (Function.update s a va) b vb

/-- One index of the hyperbolic loop of `loom_apply_hebbian_learning`: the
conformal radii are recomputed from the current (partially updated) store at
every index, exactly as in the C loop. -/
def kernHypStep (s : ℕ → Vec256) (a b : ℕ) (rate : ℝ) (i : ℕ) : ℕ → Vec256 :=
  let diff := s b i - s a i
  let r_a := Real.sqrt (kernHypSumSq (s a))
  let r_b := Real.sqrt (kernHypSumSq (s b))
  let lambda_a := 2 / (1 - r_a * r_a)
  let lambda_b := 2 / (1 - r_b * r_b)
  let grad_a := rate * 0.01 * lambda_a * lambda_a * diff
  let grad_b := -(rate * 0.01) * lambda_b * lambda_b * diff
  let s1 := updComp256 s a i (s a i + grad_a)
  updComp256 s1 b i (s1 b i + grad_b)

/-- The hyperbolic loop of `loom_apply_hebbian_learning` over dimensions 4–19. -/
def kernHypFold (s : ℕ → Vec256) (a b : ℕ) (rate : ℝ) : ℕ → Vec256 :=
  (List.range 16).foldl (fun u k => kernHypStep u a b rate (K.VEC_HYPERBOLIC + k)) s

/-- One index of the emotional-resonance loop of `loom_apply_hebbian_learning`:
`resonance` is read before either write and the write to `vec_b` reads the
already-updated `vec_a`. -/
def kernEmoStep (s : ℕ → Vec256) (a b : ℕ) (rate : ℝ) (i : ℕ) : ℕ → Vec256 :=
  let resonance := s a i * s b i
  let s1 := updComp256 s a i (s a i + rate * 0.05 * (s b i - s a i) * resonance)
  updComp256 s1 b i (s1 b i + rate * 0.05 * (s1 a i - s1 b i) * resonance)

/-- `loom_apply_hebbian_learning`: semantic convergence, Riemannian-corrected
hyperbolic step, projection of both nodes back to the Poincaré ball, then
emotional resonance.  (The kernel version does not renormalize the vectors.) -/
def loom_apply_hebbian_learning (t : LoomTopology) (a b : ℕ) (rate : ℝ) :
    LoomTopology :=
  let s1 := kernSemStage t.node_bank a b rate
  let s2 := kernHypFold s1 a b rate
  let s3 := Function.update s2 a (withHypBlock (s2 a) (loom_project_to_poincare (hypBlock (s2 a))))
  let s4 := Function.update s3 b (withHypBlock (s3 b) (loom_project_to_poincare (hypBlock (s3 b))))
  let s5 := (List.range 32).foldl (fun u k => kernEmoStep u a b rate (K.VEC_EMOTIONAL + k)) s4
  { t with node_bank := s5 }

/-- The existing-edge scan of `loom_create_edge`: first index in
`[row_start, row_end)` whose column index equals the target. -/
def kernFindInRow (m : CSRMatrix) (row_start row_end target : ℕ) : Option ℕ :=
  (List.range' row_start (row_end - row_start)).find? (fun i => m.col_idx i == target)

/-- `loom_create_edge`: overwrite the weight when the target is already in the
source's row; otherwise shift the suffix of the column/value arrays, insert at
the end of the source's row, increment every row pointer in
`[source+1, num_nodes]`, bump the edge count and the two nodes' metadata
connection counters.  (The C function performs no bounds checks.) -/
def loom_create_edge (t : LoomTopology) (source target : ℕ) (weight : ℝ) :
    LoomTopology :=
  let m := t.edge_matrix
  let row_start := m.row_ptr source
  let row_end := m.row_ptr (source + 1)
  match kernFindInRow m row_start row_end target with
  | some i =>
      { t with edge_matrix := { m with values := Function.update m.values i weight } }
  | none =>
      let insert_pos := row_end
      let total_edges := m.num_edges
      let col' : ℕ → ℕ := fun i =>
        if i < insert_pos then m.col_idx i
        else if i = insert_pos then target
        else if i ≤ total_edges then m.col_idx (i - 1)
        else m.col_idx i
      let val' : ℕ → ℝ := fun i =>
        if i < insert_pos then m.values i
        else if i = insert_pos then weight
        else if i ≤ total_edges then m.values (i - 1)
        else m.values i
      let rp' : ℕ → ℕ := fun i =>
        if source + 1 ≤ i ∧ i ≤ t.num_nodes then m.row_ptr i + 1 else m.row_ptr i
      let nb1 := updComp256 t.node_bank source (K.VEC_METADATA + 1)
        (t.node_bank source (K.VEC_METADATA + 1) + 1)
      let nb2 := updComp256 nb1 target (K.VEC_METADATA + 1)
        (nb1 target (K.VEC_METADATA + 1) + 1)
      { t with
          edge_matrix :=
            { m with row_ptr := rp', col_idx := col', values := val',
                     num_edges := m.num_edges + 1 },
          node_bank := nb2 }

/-- `loom_create_bidirectional`: both directed edges, then one Hebbian pull at
`weight * 0.1`. -/
def loom_create_bidirectional (t : LoomTopology) (a b : ℕ) (weight : ℝ) :
    LoomTopology :=
  let t1 := loom_create_edge t a b weight
  let t2 := loom_create_edge t1 b a weight
  loom_apply_hebbian_learning t2 a b (weight * 0.1)

/-- The column indices of node `s`'s row in the CSR matrix: `col_idx` over
the index window `[row_ptr s, row_ptr (s+1))`. -/
def kernRowCols (t : LoomTopology) (s : ℕ) : List ℕ :=
  (List.range' (t.edge_matrix.row_ptr s)
    (t.edge_matrix.row_ptr (s + 1) - t.edge_matrix.row_ptr s)).map t.edge_matrix.col_idx

/-- The CSR invariants named by the spec: row pointers non-decreasing up to
`num_nodes`, the last row pointer equal to the edge count, and the column
indices within each row distinct. -/
def CSRWF (t : LoomTopology) : Prop :=
  (∀ i j, i ≤ j → j ≤ t.num_nodes →
    t.edge_matrix.row_ptr i ≤ t.edge_matrix.row_ptr j) ∧
  t.edge_matrix.row_ptr t.num_nodes = t.edge_matrix.num_edges ∧
  ∀ s, s < t.num_nodes → (kernRowCols t s).Nodup

/-- Environment abstracting the non-real-number inputs of
`loom_initialize_vector`: the bit-reinterpretation of the hash as two
half-precision floats, and the `rand()`-derived draws. -/
structure KernEnv where
  idBits : ℕ → ℝ × ℝ
  u1 : ℕ → ℝ
  u2 : ℕ → ℝ
  connRand : ℕ → ℝ

/-- `r`, `theta`, `phi` seeds of the hyperbolic spiral in
`loom_initialize_vector`. -/
def kernInitR (hash : ℕ) : ℝ := ((hash % 1000 : ℕ) : ℝ) / 1000 * 0.9

def kernInitTheta (hash : ℕ) : ℝ := ((hash % 360 : ℕ) : ℝ) / 180 * Real.pi

def kernInitPhi (hash : ℕ) : ℝ := (((hash / 2 ^ 16) % 180 : ℕ) : ℝ) / 180 * Real.pi

/-- Component `pos` (0, 1 or 2) of triplet `k` of the hyperbolic spiral in
`loom_initialize_vector`: triplet `k` uses `r * 0.95^k`, `theta + k*GOLDEN`,
`phi + k*π/8`. -/
def kernTripletVal (hash k pos : ℕ) : ℝ :=
  let r := kernInitR hash * (0.95 : ℝ) ^ k
  let theta := kernInitTheta hash + (k : ℝ) * golden
  let phi := kernInitPhi hash + (k : ℝ) * (Real.pi / 8)
  if pos = 0 then r * Real.sin phi * Real.cos theta
  else if pos = 1 then r * Real.sin phi * Real.sin theta
  else r * Real.cos phi

/-- The hyperbolic-spiral loop of `loom_initialize_vector`.  The C loop runs
`for (i = 4; i < 20; i += 3)`, i.e. six triplets based at 4,7,10,13,16,19;
the last triplet also writes indices 20 and 21, which the subsequent semantic
loop overwrites. -/
def kernInitHypStage (v : Vec256) (hash : ℕ) : Vec256 := fun i =>
  if K.VEC_HYPERBOLIC ≤ i ∧ i < K.VEC_HYPERBOLIC + 18 then
    kernTripletVal hash ((i - K.VEC_HYPERBOLIC) / 3) ((i - K.VEC_HYPERBOLIC) % 3)
  else v i

/-- The writes of `loom_initialize_vector` before its final normalization:
the hash is bit-stored over components 0–1, the hyperbolic spiral fills 4–19
(and transiently 20–21), Box–Muller samples fill the semantic zone 20–83,
activation 84–147 is zeroed, connections 148–211 take small random values,
the emotional zone 212–243 is set to `0.5`, metadata 244–246 is set, and every
other component keeps its previous contents. -/
def kernInitPre (old : Vec256) (hash : ℕ) (env : KernEnv) : Vec256 :=
  let v1 : Vec256 := fun i =>
    if i = 0 then (env.idBits hash).1
    else if i = 1 then (env.idBits hash).2
    else old i
  let v2 := kernInitHypStage v1 hash
  let v3 : Vec256 := fun i =>
    if K.VEC_SEMANTIC ≤ i ∧ i < K.VEC_SEMANTIC + 64 then
      Real.sqrt (-2 * Real.log (env.u1 i)) * Real.cos (2 * Real.pi * env.u2 i) *
        Real.sqrt (2 / 64)
    else v2 i
  let v4 : Vec256 := fun i =>
    if K.VEC_ACTIVATION ≤ i ∧ i < K.VEC_ACTIVATION + 64 then 0 else v3 i
  let v5 : Vec256 := fun i =>
    if K.VEC_CONNECTIONS ≤ i ∧ i < K.VEC_CONNECTIONS + 64 then env.connRand i else v4 i
  let v6 : Vec256 := fun i =>
    if K.VEC_EMOTIONAL ≤ i ∧ i < K.VEC_EMOTIONAL + 32 then 0.5 else v5 i
  fun i =>
    if i = K.VEC_METADATA then 0
    else if i = K.VEC_METADATA + 1 then 0
    else if i = K.VEC_METADATA + 2 then 1
    else v6 i

/-- `loom_initialize_vector` (name shortened for the identifier rules): the
component writes of `kernInitPre` followed by the final
`loom_normalize_vector` call. -/
def loom_init_vector (old : Vec256) (hash : ℕ) (env : KernEnv) : Vec256 :=
  loom_normalize_vector (kernInitPre old hash env)

/-- `loom_weave_node`: unconditionally assigns `num_nodes++` as the id and
initializes the vector in that slot — the C function performs no capacity
check and reports no failure. -/
def loom_weave_node (t : LoomTopology) (identifier : List ℕ) (env : KernEnv) :
    ℕ × LoomTopology :=
  let node_id := t.num_nodes
  let hash := loom_hash_string identifier
  (node_id,
    { t with
        num_nodes := node_id + 1,
        node_bank := Function.update t.node_bank node_id
          (loom_init_vector (t.node_bank node_id) hash env) })

/-- Modelled from the spec: `loom_simd_cosine_similarity` is declared in
loom_kernel.h (AVX-512) but not defined under src/; spec §6 lists cosine
similarity as dot product over the product of norms (0 when either is 0,
as in the scalar ESP32 implementation). -/
def loom_cosine_similarity (a b : Vec256) : ℝ :=
  let na := Real.sqrt (loomNormSq a)
  let nb := Real.sqrt (loomNormSq b)
  if 0 < na ∧ 0 < nb then
    (∑ i ∈ Finset.range K.LOOM_NODE_DIMENSIONS, a i * b i) / (na * nb)
  else 0

/-- The pairwise-similarity accumulation of `loom_create_hyperedge` for the
relational dimensions 32–95: every unordered pair of distinct participants
contributes `similarity / (count*(count-1)/2)` (integer division, as in C). -/
def kernPairSimSum (t : LoomTopology) (ps : List ℕ) : ℝ :=
  let count := ps.length
  ((List.range count).map (fun i =>
      ((List.range count).filter (fun j => i < j)).map (fun j =>
        loom_cosine_similarity (t.node_bank (ps.getD i 0)) (t.node_bank (ps.getD j 0)) /
          ((count * (count - 1) / 2 : ℕ) : ℝ))
    |>.foldl (· + ·) 0)).foldl (· + ·) 0

/-- `loom_create_hyperedge`: assigns `num_hyperedges++` with no capacity check
and no failure path, fills the 128-float processor vector (averages of
even-indexed components for dims < 32, accumulated pairwise similarities for
dims 32–95, `1/sqrt(count)` group coherence otherwise), then creates Levi
bidirectional edges from every participant to the virtual node
`LOOM_MAX_NODES + id` with weight `1.0/count`. -/
def loom_create_hyperedge (t : LoomTopology) (participants : List ℕ) :
    ℕ × LoomTopology :=
  let hyperedge_id := t.num_hyperedges
  let count := participants.length
  let old := t.hyperedges hyperedge_id
  let pv : ℕ → ℝ := fun dim =>
    if dim < 32 then
      (participants.foldl (fun s p => s + t.node_bank p (dim * 2)) 0) / (count : ℝ)
    else if dim < 96 then old.processor_vector dim + kernPairSimSum t participants
    else 1 / Real.sqrt (count : ℝ)
  let hedge : Hyperedge :=
    { id := hyperedge_id, participants := participants, processor_vector := pv }
  let t1 := { t with
      hyperedges := Function.update t.hyperedges hyperedge_id hedge,
      num_hyperedges := hyperedge_id + 1 }
  (hyperedge_id,
    participants.foldl
      (fun u p => loom_create_bidirectional u p (K.LOOM_MAX_NODES + hyperedge_id) (1 / (count : ℝ)))
      t1)

/-- Modelled from the spec: `loom_apply_trajectory_evolution` is declared in
loom_kernel.h and called from `loom_kernel_cycle`, but its definition is not
under src/.  Spec §3: a trajectory interpolates one node's activation toward
a target value; only the activation component of the affected node is
written (completion bookkeeping touches only the trajectory list). -/
def loom_apply_trajectory_evolution (t : LoomTopology) (dt : ℝ) : LoomTopology :=
  let bank := t.active_trajectories.foldl
    (fun s tr => updComp256 s tr.node_id K.VEC_ACTIVATION
      (s tr.node_id K.VEC_ACTIVATION +
        (tr.target - s tr.node_id K.VEC_ACTIVATION) * tr.lambda * dt))
    t.node_bank
  { t with node_bank := bank }

/-- The per-node Hebbian pass of `loom_kernel_cycle` (phase 1), modelled
sequentially: for every edge in the node's CSR row, when the activation
product exceeds `0.5`, apply `loom_apply_hebbian_learning` at `weight * dt`. -/
def kernCyclePhase1 (t : LoomTopology) (dt : ℝ) : LoomTopology :=
  (List.range t.num_nodes).foldl (fun u node =>
    (List.range' (u.edge_matrix.row_ptr node)
        (u.edge_matrix.row_ptr (node + 1) - u.edge_matrix.row_ptr node)).foldl (fun u' e =>
      if 0.5 < u'.node_bank node K.VEC_ACTIVATION *
          u'.node_bank (u'.edge_matrix.col_idx e) K.VEC_ACTIVATION then
        loom_apply_hebbian_learning u' node (u'.edge_matrix.col_idx e)
          (u'.edge_matrix.values e * dt)
      else u') u) t

/-- `loom_kernel_cycle`: phase 1 Hebbian forces, phase 2 trajectory evolution
(spec-modelled, see `loom_apply_trajectory_evolution`), phase 3 hyperedge
processing — the CPU baseline `loom_compute_hyperedge` in loom_tensor.c is a
no-op on the topology — and phase 4 hormonal decay (`stress *= 0.99`, then
`curiosity = 0.8 * (1 - stress)` reading the decayed stress). -/
def loom_kernel_cycle (t : LoomTopology) (dt : ℝ) : LoomTopology :=
  let t1 := kernCyclePhase1 t dt
  let t2 := loom_apply_trajectory_evolution t1 dt
  { t2 with hormones :=
      { t2.hormones with
          stress_hormone := t2.hormones.stress_hormone * 0.99,
          curiosity_factor := 0.8 * (1 - t2.hormones.stress_hormone * 0.99) } }

/-- Squared Euclidean distance between the semantic zones (dimensions 20–83)
of two kernel nodes. -/
def semDistSq (t : LoomTopology) (a b : ℕ) : ℝ :=
  ∑ j ∈ Finset.range 64,
    (t.node_bank b (K.VEC_SEMANTIC + j) - t.node_bank a (K.VEC_SEMANTIC + j)) *
      (t.node_bank b (K.VEC_SEMANTIC + j) - t.node_bank a (K.VEC_SEMANTIC + j))

/-- Euclidean distance between the semantic zones of two kernel nodes. -/
def semDist (t : LoomTopology) (a b : ℕ) : ℝ := Real.sqrt (semDistSq t a b)

/-- The hyperbolic-ball invariant on a node store: every node's hyperbolic
zone (dimensions 4–19) has Euclidean norm at most `0.99`. -/
def HypOKStore (s : ℕ → Vec256) : Prop :=
  ∀ n, Real.sqrt (kernHypSumSq (s n)) ≤ 0.99

/-- The hyperbolic-ball invariant on a kernel topology. -/
def HypOK (t : LoomTopology) : Prop := HypOKStore t.node_bank

/-! ## Concrete inputs used by witnesses and counterexamples -/

/-- The all-zero 32-float vector. -/
def zeroVec32 : Vec32 := fun _ => 0

/-- The all-zero 256-float vector. -/
def zeroVec256 : Vec256 := fun _ => 0

/-- A 32-float vector with a single nonzero component. -/
def oneHotVec32 : Vec32 := fun i => if i = 0 then 2 else 0

/-- A 256-float vector with a single nonzero component. -/
def oneHotVec256 : Vec256 := fun i => if i = 0 then 2 else 0

/-- A placeholder edge record. -/
def zeroEdge : Esp32Edge := { target := 0, weight := 0, flags := 0 }

/-- A placeholder hyperedge record. -/
def zeroHyperedge : Esp32Hyperedge :=
  { participants := [], processor_type := 0, processor_state := 0, activation_count := 0 }

/-- An ESP32 topology with two inactive nodes and one active hyperedge. -/
def esp32QuietTopo : Esp32LoomTopology where
  nodes := fun _ => zeroVec32
  edges := fun _ => zeroEdge
  hyperedges := fun _ =>
    { participants := [0, 1], processor_type := E.PROCESSOR_RESONANCE,
      processor_state := 0.7, activation_count := 0 }
  num_nodes := 2
  num_edges := 0
  num_hyperedges := 1

/-- An ESP32 topology whose node table is full. -/
def esp32FullNodesTopo : Esp32LoomTopology where
  nodes := fun _ => zeroVec32
  edges := fun _ => zeroEdge
  hyperedges := fun _ => zeroHyperedge
  num_nodes := 512
  num_edges := 0
  num_hyperedges := 0

/-- An ESP32 topology whose edge table is full. -/
def esp32FullEdgesTopo : Esp32LoomTopology where
  nodes := fun _ => zeroVec32
  edges := fun _ => zeroEdge
  hyperedges := fun _ => zeroHyperedge
  num_nodes := 3
  num_edges := 2048
  num_hyperedges := 0

/-- An ESP32 topology with three nodes and one free edge slot; every stored
edge targets node 2, so no edge toward node 0 or 1 exists. -/
def esp32BoundaryTopo : Esp32LoomTopology where
  nodes := fun _ => zeroVec32
  edges := fun _ => { target := 2, weight := 0, flags := 0 }
  hyperedges := fun _ => zeroHyperedge
  num_nodes := 3
  num_edges := 2047
  num_hyperedges := 0

/-- A trivial random stream. -/
def rand0 : ℕ → ℝ := fun _ => 0

/-- A trivial kernel environment. -/
def kernEnv0 : KernEnv where
  idBits := fun _ => (0, 0)
  u1 := fun _ => 0
  u2 := fun _ => 0
  connRand := fun _ => 0

/-- A kernel topology holding 4 nodes (the capacity handed to `loom_init` in
the failing scenario) with an empty edge matrix. -/
def kernCapTopo : LoomTopology where
  node_bank := fun _ => zeroVec256
  edge_matrix := { row_ptr := fun _ => 0, col_idx := fun _ => 0, values := fun _ => 0,
                   num_nodes := 0, num_edges := 0 }
  hyperedges := fun _ => { id := 0, participants := [], processor_vector := fun _ => 0 }
  hormones := { legacy_drive := 0, stress_hormone := 0, curiosity_factor := 0.8, satisfaction := 0.5 }
  active_trajectories := []
  num_nodes := 4
  num_hyperedges := 0

/-- A 32-float vector with activation 1 (component `VEC_ACTIVATION` = 20). -/
def actOneVec32 : Vec32 := fun i => if i = 20 then 1 else 0

/-- Base topology for the C8 scenario: three nodes with activations 0, 1, 0
and no edges. -/
def esp32DynBase : Esp32LoomTopology where
  nodes := fun n => if n = 1 then actOneVec32 else zeroVec32
  edges := fun _ => zeroEdge
  hyperedges := fun _ => zeroHyperedge
  num_nodes := 3
  num_edges := 0
  num_hyperedges := 0

/-- The C8 scenario: `create_edge(0, 1, 1.0)` then `create_edge(1, 2, 1.0)` on
the base topology.  Node 2 is never used as a source, so under the claim it
has no outgoing edges and its activation must stay unchanged. -/
def esp32DynTopo : Esp32LoomTopology :=
  (esp32_loom_create_edge (esp32_loom_create_edge esp32DynBase 0 1 1 0).2 1 2 1 0).2

/-- A kernel topology whose node 1 has a single nonzero semantic component
(all other nodes are zero). -/
def kernSemTopo : LoomTopology where
  node_bank := fun n => if n = 1 then (fun i => if i = 20 then 1 else 0) else zeroVec256
  edge_matrix := { row_ptr := fun _ => 0, col_idx := fun _ => 0, values := fun _ => 0,
                   num_nodes := 0, num_edges := 0 }
  hyperedges := fun _ => { id := 0, participants := [], processor_vector := fun _ => 0 }
  hormones := { legacy_drive := 0, stress_hormone := 0, curiosity_factor := 0.8, satisfaction := 0.5 }
  active_trajectories := []
  num_nodes := 2
  num_hyperedges := 0

/-! ## Helper lemmas -/

theorem sumSq_nonneg (n : ℕ) (v : ℕ → ℝ) :
    0 ≤ ∑ i ∈ Finset.range n, v i * v i :=
  Finset.sum_nonneg fun i _ => mul_self_nonneg (v i)

theorem sumSq_div_sq (n : ℕ) (v : ℕ → ℝ) (m : ℝ) :
    ∑ i ∈ Finset.range n, (v i / m) * (v i / m)
      = (∑ i ∈ Finset.range n, v i * v i) / (m * m) := by
  rw [Finset.sum_div]
  exact Finset.sum_congr rfl fun i _ => div_mul_div_comm (v i) m (v i) m

theorem esp32_normalize_zero (v : Vec32) (h : ∀ i, v i = 0) :
    esp32_loom_normalize_vector v = v := by
  have hs : esp32NormSq v = 0 := by
    unfold esp32NormSq
    simp [h]
  unfold esp32_loom_normalize_vector
  simp [hs]

theorem esp32_normalize_unit (v : Vec32) (h : 0 < esp32NormSq v) :
    esp32NormSq (esp32_loom_normalize_vector v) = 1 := by
  have hm : 0 < Real.sqrt (esp32NormSq v) := Real.sqrt_pos.mpr h
  have hv : esp32_loom_normalize_vector v = fun i => v i / Real.sqrt (esp32NormSq v) := by
    unfold esp32_loom_normalize_vector
    simp [hm]
  rw [hv]
  show ∑ i ∈ Finset.range E.ESP32_NODE_DIMENSIONS,
      (v i / Real.sqrt (esp32NormSq v)) * (v i / Real.sqrt (esp32NormSq v)) = 1
  rw [sumSq_div_sq, Real.mul_self_sqrt (le_of_lt h)]
  exact div_self (ne_of_gt h)

theorem kern_normalize_zero (v : Vec256) (h : ∀ i, v i = 0) :
    loom_normalize_vector v = v := by
  have hs : loomNormSq v = 0 := by
    unfold loomNormSq
    simp [h]
  unfold loom_normalize_vector
  simp [hs]

theorem kern_normalize_unit (v : Vec256) (h : 0 < loomNormSq v) :
    loomNormSq (loom_normalize_vector v) = 1 := by
  have hm : 0 < Real.sqrt (loomNormSq v) := Real.sqrt_pos.mpr h
  have hv : loom_normalize_vector v = fun i => v i / Real.sqrt (loomNormSq v) := by
    unfold loom_normalize_vector
    simp [hm]
  rw [hv]
  show ∑ i ∈ Finset.range K.LOOM_NODE_DIMENSIONS,
      (v i / Real.sqrt (loomNormSq v)) * (v i / Real.sqrt (loomNormSq v)) = 1
  rw [sumSq_div_sq, Real.mul_self_sqrt (le_of_lt h)]
  exact div_self (ne_of_gt h)

theorem esp32FindEdge_none (edges : ℕ → Esp32Edge) (n target : ℕ)
    (h : ∀ i, (edges i).target ≠ target) : esp32FindEdge edges n target = none := by
  unfold esp32FindEdge
  refine List.find?_eq_none.mpr fun i _ => ?_
  simp [h i]

theorem espErrNoMem_ne_ok : EspErr.espErrNoMem ≠ EspErr.espOk :=
  fun h => EspErr.noConfusion h

theorem esp32_create_edge_fail_capacity (t : Esp32LoomTopology) (s d : ℕ) (w : ℝ) (f : ℕ)
    (h : E.ESP32_MAX_EDGES ≤ t.num_edges) :
    esp32_loom_create_edge t s d w f = (EspErr.espErrNoMem, t) := by
  unfold esp32_loom_create_edge
  simp [h]

theorem esp32Boundary_insert :
    (esp32_loom_create_edge esp32BoundaryTopo 0 1 (1 / 2) E.EDGE_FLAG_BIDIRECTIONAL).1 =
        EspErr.espOk ∧
    (esp32_loom_create_edge esp32BoundaryTopo 0 1 (1 / 2) E.EDGE_FLAG_BIDIRECTIONAL).2.num_edges =
        2048 := by
  have hfind : esp32FindEdge esp32BoundaryTopo.edges esp32BoundaryTopo.num_edges 1 = none := by
    refine esp32FindEdge_none _ _ _ fun i => ?_
    show (2 : ℕ) ≠ 1
    decide
  have h1 : ¬ E.ESP32_MAX_EDGES ≤ esp32BoundaryTopo.num_edges := by decide
  have h2 : ¬ (esp32BoundaryTopo.num_nodes ≤ 0 ∨ esp32BoundaryTopo.num_nodes ≤ 1) := by decide
  unfold esp32_loom_create_edge
  rw [if_neg h1, if_neg h2, hfind]
  exact ⟨rfl, rfl⟩

theorem kernHypSumSq_nonneg (v : Vec256) : 0 ≤ kernHypSumSq v := by
  unfold kernHypSumSq hypBlockSq
  exact Finset.sum_nonneg fun i _ => mul_self_nonneg _

theorem kernInitR_nonneg (hash : ℕ) : 0 ≤ kernInitR hash := by
  unfold kernInitR
  positivity

theorem kernInitR_le (hash : ℕ) : kernInitR hash ≤ 0.9 := by
  unfold kernInitR
  have h : ((hash % 1000 : ℕ) : ℝ) ≤ 1000 := by
    have := Nat.mod_lt hash (show 0 < 1000 by norm_num)
    exact_mod_cast le_of_lt this
  have h0 : (0 : ℝ) ≤ ((hash % 1000 : ℕ) : ℝ) := Nat.cast_nonneg _
  nlinarith

theorem sqBound (r s : ℝ) (hr0 : 0 ≤ r) (hr : r ≤ 0.9) (hs : s * s ≤ 1) :
    (r * s) * (r * s) ≤ 0.81 := by
  nlinarith [mul_self_nonneg s, mul_self_nonneg r, mul_nonneg hr0 hr0]

theorem sinMulCos_sq_le_one (x y : ℝ) :
    (Real.sin x * Real.cos y) * (Real.sin x * Real.cos y) ≤ 1 := by
  nlinarith [Real.sin_sq_le_one x, Real.cos_sq_le_one y, sq_nonneg (Real.sin x),
    sq_nonneg (Real.cos y)]

theorem sinMulSin_sq_le_one (x y : ℝ) :
    (Real.sin x * Real.sin y) * (Real.sin x * Real.sin y) ≤ 1 := by
  nlinarith [Real.sin_sq_le_one x, Real.sin_sq_le_one y, sq_nonneg (Real.sin x),
    sq_nonneg (Real.sin y)]

theorem cosSelf_sq_le_one (x : ℝ) : Real.cos x * Real.cos x ≤ 1 := by
  nlinarith [Real.cos_sq_le_one x]

theorem kernTripletVal_sq_le (hash k pos : ℕ) :
    kernTripletVal hash k pos * kernTripletVal hash k pos ≤ 0.81 := by
  have hr0 : 0 ≤ kernInitR hash * (0.95 : ℝ) ^ k :=
    mul_nonneg (kernInitR_nonneg hash) (pow_nonneg (by norm_num) _)
  have hple : (0.95 : ℝ) ^ k ≤ 1 :=
    pow_le_one₀ (by norm_num) (by norm_num)
  have hr : kernInitR hash * (0.95 : ℝ) ^ k ≤ 0.9 := by
    nlinarith [kernInitR_nonneg hash, kernInitR_le hash,
      pow_nonneg (show (0 : ℝ) ≤ 0.95 by norm_num) k]
  unfold kernTripletVal
  simp only []
  split_ifs
  · nlinarith [sqBound (kernInitR hash * (0.95 : ℝ) ^ k)
      (Real.sin (kernInitPhi hash + (k : ℝ) * (Real.pi / 8)) *
        Real.cos (kernInitTheta hash + (k : ℝ) * golden)) hr0 hr
      (sinMulCos_sq_le_one _ _)]
  · nlinarith [sqBound (kernInitR hash * (0.95 : ℝ) ^ k)
      (Real.sin (kernInitPhi hash + (k : ℝ) * (Real.pi / 8)) *
        Real.sin (kernInitTheta hash + (k : ℝ) * golden)) hr0 hr
      (sinMulSin_sq_le_one _ _)]
  · nlinarith [sqBound (kernInitR hash * (0.95 : ℝ) ^ k)
      (Real.cos (kernInitPhi hash + (k : ℝ) * (Real.pi / 8))) hr0 hr
      (cosSelf_sq_le_one _)]

theorem kernInitPre_hyp_val (old : Vec256) (hash : ℕ) (env : KernEnv) (i : ℕ)
    (h4 : 4 ≤ i) (h20 : i < 20) :
    kernInitPre old hash env i = kernTripletVal hash ((i - 4) / 3) ((i - 4) % 3) := by
  unfold kernInitPre kernInitHypStage
  simp only [K.VEC_METADATA, K.VEC_EMOTIONAL, K.VEC_CONNECTIONS, K.VEC_ACTIVATION,
    K.VEC_SEMANTIC, K.VEC_HYPERBOLIC]
  have hm0 : ¬ i = 244 := by omega
  have hm1 : ¬ i = 245 := by omega
  have hm2 : ¬ i = 246 := by omega
  have hzE : ¬ (212 ≤ i ∧ i < 244) := by omega
  have hzC : ¬ (148 ≤ i ∧ i < 212) := by omega
  have hzA : ¬ (84 ≤ i ∧ i < 148) := by omega
  have hzS : ¬ (20 ≤ i ∧ i < 84) := by omega
  have hzH : 4 ≤ i ∧ i < 22 := by omega
  rw [if_neg hm0, if_neg hm1, if_neg hm2, if_neg hzE, if_neg hzC, if_neg hzA,
    if_neg hzS, if_pos hzH]

theorem kernInitPre_emotional (old : Vec256) (hash : ℕ) (env : KernEnv) (i : ℕ)
    (h1 : 212 ≤ i) (h2 : i < 244) : kernInitPre old hash env i = 0.5 := by
  unfold kernInitPre
  simp only [K.VEC_METADATA, K.VEC_EMOTIONAL]
  rw [if_neg (by omega), if_neg (by omega), if_neg (by omega), if_pos (by omega)]

theorem kernInitPre_meta_active (old : Vec256) (hash : ℕ) (env : KernEnv) :
    kernInitPre old hash env 246 = 1 := by
  unfold kernInitPre
  simp only [K.VEC_METADATA]
  rw [if_neg (by omega), if_neg (by omega)]
  simp

theorem kernInitPre_hypSq_le (old : Vec256) (hash : ℕ) (env : KernEnv) :
    ∑ j ∈ Finset.range 16,
      kernInitPre old hash env (4 + j) * kernInitPre old hash env (4 + j) ≤ 13 := by
  have hb : ∀ j ∈ Finset.range 16,
      kernInitPre old hash env (4 + j) * kernInitPre old hash env (4 + j) ≤ 0.81 := by
    intro j hj
    have hj16 := Finset.mem_range.mp hj
    rw [kernInitPre_hyp_val old hash env (4 + j) (by omega) (by omega)]
    exact kernTripletVal_sq_le hash _ _
  calc ∑ j ∈ Finset.range 16,
        kernInitPre old hash env (4 + j) * kernInitPre old hash env (4 + j)
      ≤ ∑ _j ∈ Finset.range 16, (0.81 : ℝ) := Finset.sum_le_sum hb
    _ ≤ 13 := by
        rw [Finset.sum_const]
        norm_num

theorem kernInitPre_normSq_ge (old : Vec256) (hash : ℕ) (env : KernEnv) :
    (∑ j ∈ Finset.range 16,
      kernInitPre old hash env (4 + j) * kernInitPre old hash env (4 + j)) + 9
      ≤ loomNormSq (kernInitPre old hash env) := by
  have hd1 : Disjoint (Finset.Ico 4 20) (Finset.Ico 212 244 ∪ {246}) := by
    rw [Finset.disjoint_left]
    intro a ha hb
    simp only [Finset.mem_Ico] at ha
    simp only [Finset.mem_union, Finset.mem_Ico, Finset.mem_singleton] at hb
    omega
  have hd2 : Disjoint (Finset.Ico 212 244) ({246} : Finset ℕ) := by
    rw [Finset.disjoint_left]
    intro a ha hb
    simp only [Finset.mem_Ico] at ha
    simp only [Finset.mem_singleton] at hb
    omega
  have hsub : (Finset.Ico 4 20 ∪ (Finset.Ico 212 244 ∪ {246})) ⊆ Finset.range 256 := by
    intro x hx
    simp only [Finset.mem_union, Finset.mem_Ico, Finset.mem_singleton] at hx
    simp only [Finset.mem_range]
    omega
  have hsum : ∑ i ∈ (Finset.Ico 4 20 ∪ (Finset.Ico 212 244 ∪ {246})),
        kernInitPre old hash env i * kernInitPre old hash env i
      = (∑ i ∈ Finset.Ico 4 20, kernInitPre old hash env i * kernInitPre old hash env i)
        + ((∑ i ∈ Finset.Ico 212 244, kernInitPre old hash env i * kernInitPre old hash env i)
           + kernInitPre old hash env 246 * kernInitPre old hash env 246) := by
    rw [Finset.sum_union hd1, Finset.sum_union hd2, Finset.sum_singleton]
  have h1 : ∑ i ∈ Finset.Ico 4 20, kernInitPre old hash env i * kernInitPre old hash env i
      = ∑ j ∈ Finset.range 16,
          kernInitPre old hash env (4 + j) * kernInitPre old hash env (4 + j) := by
    rw [Finset.sum_Ico_eq_sum_range]
  have h2 : ∑ i ∈ Finset.Ico 212 244,
      kernInitPre old hash env i * kernInitPre old hash env i = 8 := by
    have hc : ∀ i ∈ Finset.Ico 212 244,
        kernInitPre old hash env i * kernInitPre old hash env i = 1 / 4 := by
      intro i hi
      simp only [Finset.mem_Ico] at hi
      rw [kernInitPre_emotional old hash env i hi.1 hi.2]
      norm_num
    rw [Finset.sum_congr rfl hc, Finset.sum_const, Nat.card_Ico]
    norm_num
  have h3 : kernInitPre old hash env 246 * kernInitPre old hash env 246 = 1 := by
    rw [kernInitPre_meta_active]
    norm_num
  have hle : ∑ i ∈ (Finset.Ico 4 20 ∪ (Finset.Ico 212 244 ∪ {246})),
      kernInitPre old hash env i * kernInitPre old hash env i
      ≤ loomNormSq (kernInitPre old hash env) := by
    unfold loomNormSq
    simp only [K.LOOM_NODE_DIMENSIONS]
    exact Finset.sum_le_sum_of_subset_of_nonneg hsub fun i _ _ => mul_self_nonneg _
  rw [hsum, h1, h2, h3] at hle
  linarith

theorem hypBlockSq_nonneg (h : ℕ → ℝ) : 0 ≤ hypBlockSq h := by
  unfold hypBlockSq
  exact Finset.sum_nonneg fun i _ => mul_self_nonneg _

theorem foldlPreserve {α β : Type _} (f : β → α → β) (P : β → Prop) :
    ∀ (l : List α) (s : β), P s → (∀ u x, P u → P (f u x)) → P (l.foldl f s)
  | [], _, h, _ => h
  | x :: xs, s, h, hstep => foldlPreserve f P xs (f s x) (hstep s x h) hstep

/-- `loom_project_to_poincare` leaves the block's norm at most `0.99`,
unconditionally: below the bound it does not touch the block, at or above the
bound it rescales the radius to exactly `0.99`. -/
theorem loom_project_le (h : ℕ → ℝ) :
    Real.sqrt (hypBlockSq (loom_project_to_poincare h)) ≤ 0.99 := by
  unfold loom_project_to_poincare
  by_cases hc : (0.99 : ℝ) ≤ Real.sqrt (hypBlockSq h)
  · rw [if_pos hc]
    have hS0 : 0 ≤ hypBlockSq h := hypBlockSq_nonneg h
    have hSpos : 0 < hypBlockSq h := by
      rcases lt_or_eq_of_le hS0 with hlt | heq
      · exact hlt
      · rw [← heq, Real.sqrt_zero] at hc
        norm_num at hc
    have hnew : hypBlockSq
        (fun i => if i < 16 then h i * (0.99 / Real.sqrt (hypBlockSq h)) else h i)
        = 0.9801 := by
      set c := 0.99 / Real.sqrt (hypBlockSq h) with hc_def
      have hfactor : hypBlockSq (fun i => if i < 16 then h i * c else h i)
          = (∑ i ∈ Finset.range 16, h i * h i) * (c * c) := by
        unfold hypBlockSq
        have hterm : ∀ i ∈ Finset.range 16,
            (fun i => if i < 16 then h i * c else h i) i *
              (fun i => if i < 16 then h i * c else h i) i
            = (h i * h i) * (c * c) := by
          intro i hi
          simp only []
          rw [if_pos (Finset.mem_range.mp hi)]
          ring
        rw [Finset.sum_congr rfl hterm, ← Finset.sum_mul]
      have hSigma : (∑ i ∈ Finset.range 16, h i * h i) = hypBlockSq h := rfl
      rw [hfactor, hSigma, hc_def, div_mul_div_comm, Real.mul_self_sqrt hS0, mul_comm,
        div_mul_cancel₀ _ (ne_of_gt hSpos)]
      norm_num
    rw [hnew, show (0.9801 : ℝ) = 0.99 ^ 2 by norm_num, Real.sqrt_sq (by norm_num)]
  · rw [if_neg hc]
    push_neg at hc
    exact le_of_lt hc

theorem updComp256_other (s : ℕ → Vec256) (n i : ℕ) (x : ℝ) (m : ℕ) (hm : m ≠ n) :
    updComp256 s n i x m = s m := by
  unfold updComp256
  exact Function.update_noteq hm _ _

theorem updComp256_comp (s : ℕ → Vec256) (n i : ℕ) (x : ℝ) (m j : ℕ) (hj : j ≠ i) :
    updComp256 s n i x m j = s m j := by
  unfold updComp256
  by_cases hm : m = n
  · subst hm
    rw [Function.update_same]
    exact Function.update_noteq hj _ _
  · rw [Function.update_noteq hm]

theorem kernHypSumSq_semStage (s : ℕ → Vec256) (a b : ℕ) (rate : ℝ) (n : ℕ) :
    kernHypSumSq (kernSemStage s a b rate n) = kernHypSumSq (s n) := by
  have hcomp : ∀ j, j < 16 → kernSemStage s a b rate n (4 + j) = s n (4 + j) := by
    intro j hj
    simp only [kernSemStage, K.VEC_SEMANTIC]
    by_cases hb : n = b
    · subst hb
      rw [Function.update_same, if_neg (by omega)]
    · rw [Function.update_noteq hb]
      by_cases ha : n = a
      · subst ha
        rw [Function.update_same, if_neg (by omega)]
      · rw [Function.update_noteq ha]
  unfold kernHypSumSq hypBlockSq hypBlock
  simp only [K.VEC_HYPERBOLIC]
  refine Finset.sum_congr rfl fun j hj => ?_
  rw [hcomp j (Finset.mem_range.mp hj)]

theorem kernHypSumSq_withHypBlock (v : Vec256) (h : ℕ → ℝ) :
    kernHypSumSq (withHypBlock v h) = hypBlockSq h := by
  unfold kernHypSumSq hypBlockSq hypBlock withHypBlock
  simp only [K.VEC_HYPERBOLIC]
  refine Finset.sum_congr rfl fun j hj => ?_
  have hj16 := Finset.mem_range.mp hj
  rw [if_pos (by omega)]
  norm_num

/-- The hyperbolic loop of the kernel Hebbian update writes only to nodes `a`
and `b`. -/
theorem kernHypFold_other (s : ℕ → Vec256) (a b : ℕ) (rate : ℝ) (n : ℕ)
    (hna : n ≠ a) (hnb : n ≠ b) : kernHypFold s a b rate n = s n := by
  unfold kernHypFold
  refine foldlPreserve _ (fun u => u n = s n) _ s rfl fun u k hu => ?_
  simp only [kernHypStep]
  rw [updComp256_other _ _ _ _ _ hnb, updComp256_other _ _ _ _ _ hna]
  exact hu

/-- The emotional loop of the kernel Hebbian update touches only components
212–243, so every node's hyperbolic components survive it. -/
theorem kernEmoFold_hyp (s : ℕ → Vec256) (a b : ℕ) (rate : ℝ) :
    ∀ (n j : ℕ), j < 16 →
      ((List.range 32).foldl (fun u k => kernEmoStep u a b rate (K.VEC_EMOTIONAL + k)) s) n (4 + j)
        = s n (4 + j) := by
  have := foldlPreserve (fun u k => kernEmoStep u a b rate (K.VEC_EMOTIONAL + k))
    (fun u => ∀ (n j : ℕ), j < 16 → u n (4 + j) = s n (4 + j)) (List.range 32) s
    (fun _ _ _ => rfl) ?_
  · exact this
  · intro u k hu n j hj
    simp only [kernEmoStep, K.VEC_EMOTIONAL]
    rw [updComp256_comp _ _ _ _ _ _ (by omega), updComp256_comp _ _ _ _ _ _ (by omega)]
    exact hu n j hj

/-- The Hebbian update leaves every node's hyperbolic norm at most `0.99`:
untouched nodes keep their blocks, and the two updated nodes are projected
back into the ball before the (hyperbolic-zone-preserving) emotional loop. -/
theorem kern_hebbian_HypOK (t : LoomTopology) (a b : ℕ) (rate : ℝ) (h : HypOK t) :
    HypOK (loom_apply_hebbian_learning t a b rate) := by
  intro n
  show Real.sqrt (kernHypSumSq ((loom_apply_hebbian_learning t a b rate).node_bank n)) ≤ 0.99
  simp only [loom_apply_hebbian_learning]
  set s1 := kernSemStage t.node_bank a b rate with hs1
  set s2 := kernHypFold s1 a b rate with hs2
  set s3 := Function.update s2 a
    (withHypBlock (s2 a) (loom_project_to_poincare (hypBlock (s2 a)))) with hs3
  set s4 := Function.update s3 b
    (withHypBlock (s3 b) (loom_project_to_poincare (hypBlock (s3 b)))) with hs4
  have hemo : ∀ m, kernHypSumSq
      (((List.range 32).foldl (fun u k => kernEmoStep u a b rate (K.VEC_EMOTIONAL + k)) s4) m)
      = kernHypSumSq (s4 m) := by
    intro m
    unfold kernHypSumSq hypBlockSq hypBlock
    simp only [K.VEC_HYPERBOLIC]
    refine Finset.sum_congr rfl fun j hj => ?_
    rw [kernEmoFold_hyp s4 a b rate m j (Finset.mem_range.mp hj)]
  show Real.sqrt (kernHypSumSq _) ≤ 0.99
  rw [hemo n]
  by_cases hnb : n = b
  · subst hnb
    rw [hs4, Function.update_same, kernHypSumSq_withHypBlock]
    exact loom_project_le _
  · rw [hs4, Function.update_noteq hnb]
    by_cases hna : n = a
    · subst hna
      rw [hs3, Function.update_same, kernHypSumSq_withHypBlock]
      exact loom_project_le _
    · rw [hs3, Function.update_noteq hna, hs2, kernHypFold_other s1 a b rate n hna hnb, hs1,
        kernHypSumSq_semStage]
      exact h n

theorem sqrt_le_099_of_le (x : ℝ) (h : x ≤ 0.9801) : Real.sqrt x ≤ 0.99 := by
  calc Real.sqrt x ≤ Real.sqrt 0.9801 := Real.sqrt_le_sqrt h
    _ = 0.99 := by
        rw [show (0.9801 : ℝ) = 0.99 ^ 2 by norm_num, Real.sqrt_sq (by norm_num)]

theorem kernInit_norm_facts (old : Vec256) (hash : ℕ) (env : KernEnv) :
    loomNormSq (loom_init_vector old hash env) = 1 ∧
    kernHypSumSq (loom_init_vector old hash env) ≤ 0.9801 ∧
    kernHypSumSq (loom_init_vector old hash env) < 1 := by
  have hhyp0 : 0 ≤ ∑ j ∈ Finset.range 16,
      kernInitPre old hash env (4 + j) * kernInitPre old hash env (4 + j) :=
    Finset.sum_nonneg fun j _ => mul_self_nonneg _
  have hub := kernInitPre_hypSq_le old hash env
  have hlb := kernInitPre_normSq_ge old hash env
  have hpos : 0 < loomNormSq (kernInitPre old hash env) := by linarith
  have hm : 0 < Real.sqrt (loomNormSq (kernInitPre old hash env)) := Real.sqrt_pos.mpr hpos
  have hw : loom_init_vector old hash env =
      fun i => kernInitPre old hash env i / Real.sqrt (loomNormSq (kernInitPre old hash env)) := by
    unfold loom_init_vector loom_normalize_vector
    simp [hm]
  have hunit : loomNormSq (loom_init_vector old hash env) = 1 := by
    unfold loom_init_vector
    exact kern_normalize_unit _ hpos
  have hhw : kernHypSumSq (loom_init_vector old hash env)
      = (∑ j ∈ Finset.range 16,
          kernInitPre old hash env (4 + j) * kernInitPre old hash env (4 + j))
        / loomNormSq (kernInitPre old hash env) := by
    rw [hw]
    unfold kernHypSumSq hypBlockSq hypBlock
    simp only [K.VEC_HYPERBOLIC]
    rw [sumSq_div_sq 16 (fun j => kernInitPre old hash env (4 + j))
      (Real.sqrt (loomNormSq (kernInitPre old hash env))),
      Real.mul_self_sqrt (le_of_lt hpos)]
  refine ⟨hunit, ?_, ?_⟩
  · rw [hhw, div_le_iff₀ hpos]
    nlinarith
  · rw [hhw, div_lt_one hpos]
    linarith

/-- `loom_weave_node` preserves the hyperbolic-ball invariant: the fresh node
is normalized with at least 9 units of squared magnitude outside the
hyperbolic zone, and every other node is untouched. -/
theorem kern_weave_HypOK (t : LoomTopology) (idf : List ℕ) (env : KernEnv)
    (h : HypOK t) : HypOK (loom_weave_node t idf env).2 := by
  intro n
  show Real.sqrt (kernHypSumSq ((loom_weave_node t idf env).2.node_bank n)) ≤ 0.99
  simp only [loom_weave_node]
  by_cases hn : n = t.num_nodes
  · subst hn
    rw [Function.update_same]
    obtain ⟨_, h2, _⟩ :=
      kernInit_norm_facts (t.node_bank t.num_nodes) (loom_hash_string idf) env
    exact sqrt_le_099_of_le _ h2
  · rw [Function.update_noteq hn]
    exact h n

/-- Phase 1 of the kernel cycle (the per-node, per-edge conditional Hebbian
pass) preserves the hyperbolic-ball invariant. -/
theorem kern_phase1_HypOK (t : LoomTopology) (dt : ℝ) (h : HypOK t) :
    HypOK (kernCyclePhase1 t dt) := by
  unfold kernCyclePhase1
  refine foldlPreserve _ HypOK _ t h fun u node hu => ?_
  refine foldlPreserve _ HypOK _ u hu fun u' e hu' => ?_
  by_cases hc : 0.5 < u'.node_bank node K.VEC_ACTIVATION *
      u'.node_bank (u'.edge_matrix.col_idx e) K.VEC_ACTIVATION
  · rw [if_pos hc]
    exact kern_hebbian_HypOK _ _ _ _ hu'
  · rw [if_neg hc]
    exact hu'

/-- The (spec-modelled) trajectory phase writes only activation components. -/
theorem kern_traj_hyp_comp (t : LoomTopology) (dt : ℝ) :
    ∀ m j, j < 16 →
      (loom_apply_trajectory_evolution t dt).node_bank m (4 + j) = t.node_bank m (4 + j) := by
  intro m j hj
  simp only [loom_apply_trajectory_evolution]
  refine foldlPreserve _ (fun s : ℕ → Vec256 => s m (4 + j) = t.node_bank m (4 + j)) _ _ rfl
    fun u tr hu => ?_
  simp only []
  rw [updComp256_comp _ _ _ _ _ _ (by simp only [K.VEC_ACTIVATION]; omega)]
  exact hu

/-- One full kernel cycle preserves the hyperbolic-ball invariant. -/
theorem kern_cycle_HypOK (t : LoomTopology) (dt : ℝ) (h : HypOK t) :
    HypOK (loom_kernel_cycle t dt) := by
  have h1 := kern_phase1_HypOK t dt h
  have h2 : HypOK (loom_apply_trajectory_evolution (kernCyclePhase1 t dt) dt) := by
    intro n
    have heq : kernHypSumSq
        ((loom_apply_trajectory_evolution (kernCyclePhase1 t dt) dt).node_bank n)
        = kernHypSumSq ((kernCyclePhase1 t dt).node_bank n) := by
      unfold kernHypSumSq hypBlockSq hypBlock
      simp only [K.VEC_HYPERBOLIC]
      exact Finset.sum_congr rfl fun j hj => by
        rw [kern_traj_hyp_comp _ _ n j (Finset.mem_range.mp hj)]
    show Real.sqrt _ ≤ _
    rw [heq]
    exact h1 n
  intro n
  show Real.sqrt (kernHypSumSq ((loom_kernel_cycle t dt).node_bank n)) ≤ 0.99
  simp only [loom_kernel_cycle]
  exact h2 n

theorem foldlPreserveMem {α β : Type _} (f : β → α → β) (P : β → Prop) :
    ∀ (l : List α) (s : β), P s → (∀ u x, x ∈ l → P u → P (f u x)) → P (l.foldl f s)
  | [], _, h, _ => h
  | x :: xs, s, h, hstep =>
      foldlPreserveMem f P xs (f s x) (hstep s x (List.mem_cons_self x xs) h)
        fun u y hy hu => hstep u y (List.mem_cons_of_mem x hy) hu

theorem withHypBlock_ge20 (v : Vec256) (h : ℕ → ℝ) (i : ℕ) (hi : 20 ≤ i) :
    withHypBlock v h i = v i := by
  unfold withHypBlock
  rw [if_neg (by simp only [K.VEC_HYPERBOLIC]; omega)]

/-- The hyperbolic loop of the kernel Hebbian update touches no component at
index 20 or beyond. -/
theorem kernHypFold_ge20 (s : ℕ → Vec256) (a b : ℕ) (rate : ℝ) (n i : ℕ) (hi : 20 ≤ i) :
    kernHypFold s a b rate n i = s n i := by
  unfold kernHypFold
  refine foldlPreserveMem _ (fun u : ℕ → Vec256 => u n i = s n i) _ s rfl fun u k hk hu => ?_
  have hk16 : k < 16 := List.mem_range.mp hk
  simp only [kernHypStep, K.VEC_HYPERBOLIC]
  rw [updComp256_comp _ _ _ _ _ _ (by omega), updComp256_comp _ _ _ _ _ _ (by omega)]
  exact hu

/-- The emotional loop of the kernel Hebbian update touches no component
below index 212. -/
theorem kernEmoFold_lt212 (s : ℕ → Vec256) (a b : ℕ) (rate : ℝ) (n i : ℕ) (hi : i < 212) :
    ((List.range 32).foldl (fun u k => kernEmoStep u a b rate (K.VEC_EMOTIONAL + k)) s) n i
      = s n i := by
  refine foldlPreserve _ (fun u : ℕ → Vec256 => u n i = s n i) _ s rfl fun u k hu => ?_
  simp only [kernEmoStep, K.VEC_EMOTIONAL]
  rw [updComp256_comp _ _ _ _ _ _ (by omega), updComp256_comp _ _ _ _ _ _ (by omega)]
  exact hu

/-- Semantic components written by the semantic stage, for distinct nodes. -/
theorem kernSemStage_comps (s : ℕ → Vec256) (a b : ℕ) (rate : ℝ) (hab : a ≠ b)
    (j : ℕ) (hj : j < 64) :
    kernSemStage s a b rate a (20 + j)
        = s a (20 + j) + rate * 0.1 * (s b (20 + j) - s a (20 + j)) ∧
    kernSemStage s a b rate b (20 + j)
        = s b (20 + j) - rate * 0.1 * (s b (20 + j) - s a (20 + j)) := by
  simp only [kernSemStage, K.VEC_SEMANTIC]
  constructor
  · rw [Function.update_noteq hab, Function.update_same, if_pos (by omega)]
  · rw [Function.update_same, if_pos (by omega)]

/-- Semantic components of the full kernel Hebbian update, for distinct
nodes: only the semantic stage touches them. -/
theorem kern_hebbian_sem_comps (t : LoomTopology) (a b : ℕ) (rate : ℝ) (hab : a ≠ b)
    (j : ℕ) (hj : j < 64) :
    (loom_apply_hebbian_learning t a b rate).node_bank a (20 + j)
        = t.node_bank a (20 + j) +
            rate * 0.1 * (t.node_bank b (20 + j) - t.node_bank a (20 + j)) ∧
    (loom_apply_hebbian_learning t a b rate).node_bank b (20 + j)
        = t.node_bank b (20 + j) -
            rate * 0.1 * (t.node_bank b (20 + j) - t.node_bank a (20 + j)) := by
  simp only [loom_apply_hebbian_learning]
  set s1 := kernSemStage t.node_bank a b rate with hs1
  set s2 := kernHypFold s1 a b rate with hs2
  set s3 := Function.update s2 a
    (withHypBlock (s2 a) (loom_project_to_poincare (hypBlock (s2 a)))) with hs3
  set s4 := Function.update s3 b
    (withHypBlock (s3 b) (loom_project_to_poincare (hypBlock (s3 b)))) with hs4
  have h20 : (20 : ℕ) ≤ 20 + j := by omega
  have h212 : 20 + j < 212 := by omega
  have ha : ((List.range 32).foldl (fun u k =>
        kernEmoStep u a b rate (K.VEC_EMOTIONAL + k)) s4) a (20 + j) = s1 a (20 + j) := by
    rw [kernEmoFold_lt212 s4 a b rate a _ h212, hs4, Function.update_noteq hab, hs3,
      Function.update_same, withHypBlock_ge20 _ _ _ h20, hs2, kernHypFold_ge20 s1 a b rate a _ h20]
  have hb : ((List.range 32).foldl (fun u k =>
        kernEmoStep u a b rate (K.VEC_EMOTIONAL + k)) s4) b (20 + j) = s1 b (20 + j) := by
    rw [kernEmoFold_lt212 s4 a b rate b _ h212, hs4, Function.update_same,
      withHypBlock_ge20 _ _ _ h20, hs3, Function.update_noteq (Ne.symm hab), hs2,
      kernHypFold_ge20 s1 a b rate b _ h20]
  obtain ⟨hsa, hsb⟩ := kernSemStage_comps t.node_bank a b rate hab j hj
  exact ⟨by rw [ha, hs1, hsa], by rw [hb, hs1, hsb]⟩

/-- The kernel Hebbian update scales the squared semantic distance of two
distinct nodes by `(1 - 0.2*rate)^2`. -/
theorem kern_hebbian_semDistSq (t : LoomTopology) (a b : ℕ) (rate : ℝ) (hab : a ≠ b) :
    semDistSq (loom_apply_hebbian_learning t a b rate) a b
      = (1 - 0.2 * rate) ^ 2 * semDistSq t a b := by
  unfold semDistSq
  simp only [K.VEC_SEMANTIC]
  rw [Finset.mul_sum]
  refine Finset.sum_congr rfl fun j hj => ?_
  have hj64 := Finset.mem_range.mp hj
  obtain ⟨hsa, hsb⟩ := kern_hebbian_sem_comps t a b rate hab j hj64
  rw [hsa, hsb]
  ring

theorem semDistSq_nonneg (t : LoomTopology) (a b : ℕ) : 0 ≤ semDistSq t a b := by
  unfold semDistSq
  exact Finset.sum_nonneg fun j _ => mul_self_nonneg _

theorem updComp_other (s : ℕ → Vec32) (n i : ℕ) (x : ℝ) (m : ℕ) (hm : m ≠ n) :
    updComp s n i x m = s m := by
  unfold updComp
  exact Function.update_noteq hm _ _

theorem updComp_comp (s : ℕ → Vec32) (n i : ℕ) (x : ℝ) (m j : ℕ) (hj : j ≠ i) :
    updComp s n i x m j = s m j := by
  unfold updComp
  by_cases hm : m = n
  · subst hm
    rw [Function.update_same]
    exact Function.update_noteq hj _ _
  · rw [Function.update_noteq hm]

theorem updComp_atIdx (s : ℕ → Vec32) (n i : ℕ) (x : ℝ) :
    updComp s n i x n i = x := by
  unfold updComp
  rw [Function.update_same, Function.update_same]

theorem esp32ActStep_other (t : Esp32LoomTopology) (s : ℕ → Vec32) (m i : ℕ)
    (h : i ≠ m) : esp32ActStep t s m i = s i := by
  simp only [esp32ActStep]
  split_ifs with hc
  · exact updComp_other _ _ _ _ _ h
  · rfl

/-- The in-place node loop of `esp32_loom_compute_activation_dynamics`: node
`i`'s final vector is produced by its own step applied to the store in which
nodes `0..i-1` have already been updated (later steps do not touch node `i`). -/
theorem esp32ActDyn_decompose (t : Esp32LoomTopology) :
    ∀ (n i : ℕ), i < n →
      ((List.range n).foldl (esp32ActStep t) t.nodes) i
        = esp32ActStep t (esp32ActUpTo t i) i i := by
  intro n
  induction n with
  | zero => intro i hi; omega
  | succ m ih =>
    intro i hi
    rw [List.range_succ, List.foldl_append, List.foldl_cons, List.foldl_nil]
    by_cases him : i = m
    · subst him
      rfl
    · rw [esp32ActStep_other t _ m i him]
      exact ih i (by omega)

theorem esp32DynTopo_fields :
    esp32DynTopo.nodes = esp32DynBase.nodes ∧
    esp32DynTopo.num_nodes = 3 ∧
    esp32DynTopo.num_edges = 2 ∧
    esp32DynTopo.edges 0 = ⟨1, quantizeWeight 1, 0⟩ ∧
    esp32DynTopo.edges 1 = ⟨2, quantizeWeight 1, 0⟩ :=
  ⟨rfl, rfl, rfl, rfl, rfl⟩

theorem quantizeWeight_one : quantizeWeight 1 = 127 := by
  unfold quantizeWeight int8OfReal
  rw [if_pos (by norm_num), show (1 : ℝ) * 127 = ((127 : ℤ) : ℝ) by norm_num,
    Int.floor_intCast]

/-- On the C8 topology, the edge-input sum over any store is the sum of the
activations of nodes 1 and 2 (both weights quantize to 127/127 = 1). -/
theorem esp32DynTopo_inputSum (s : ℕ → Vec32) :
    esp32EdgeInputSum esp32DynTopo s
      = s 1 E.VEC_ACTIVATION + s 2 E.VEC_ACTIVATION := by
  obtain ⟨_, _, hne, he0, he1⟩ := esp32DynTopo_fields
  unfold esp32EdgeInputSum
  rw [hne, show List.range 2 = [0, 1] from rfl]
  simp only [List.foldl_cons, List.foldl_nil, he0, he1, quantizeWeight_one]
  push_cast
  ring_nf

/-- One step of the dynamics on the C8 topology, in closed form. -/
theorem esp32DynTopo_step (s : ℕ → Vec32) (i : ℕ) :
    esp32ActStep esp32DynTopo s i
      = updComp s i E.VEC_ACTIVATION
          (max 0 (min 1 (s i E.VEC_ACTIVATION * 0.9 +
            (s 1 E.VEC_ACTIVATION + s 2 E.VEC_ACTIVATION) / 2 * 0.1))) := by
  obtain ⟨_, _, hne, _, _⟩ := esp32DynTopo_fields
  simp only [esp32ActStep]
  rw [if_pos (by rw [hne]; norm_num), esp32DynTopo_inputSum, hne]
  norm_num

theorem foldl_add_eq_sum : ∀ (l : List ℝ) (c : ℝ), l.foldl (· + ·) c = c + l.sum
  | [], c => by simp
  | a :: l, c => by
      rw [List.foldl_cons, foldl_add_eq_sum l (c + a), List.sum_cons]
      ring

theorem length_filter_eq_iff_all {α : Type _} (p : α → Bool) :
    ∀ l : List α, ((l.filter p).length = l.length ↔ ∀ a ∈ l, p a)
  | [] => by simp
  | a :: l => by
      by_cases hpa : p a
      · rw [List.filter_cons_of_pos hpa]
        simp only [List.length_cons, Nat.add_right_cancel_iff, List.mem_cons]
        rw [length_filter_eq_iff_all p l]
        constructor
        · intro h b hb
          rcases hb with hb | hb
          · rw [hb]; exact hpa
          · exact h b hb
        · intro h b hb
          exact h b (Or.inr hb)
      · rw [List.filter_cons_of_neg hpa]
        constructor
        · intro h
          exfalso
          rw [List.length_cons] at h
          have := List.length_filter_le p l
          omega
        · intro h
          exact absurd (h a (List.mem_cons_self a l)) hpa

theorem filter_pos_iff_exists {α : Type _} (p : α → Bool) :
    ∀ l : List α, (0 < (l.filter p).length ↔ ∃ a ∈ l, p a)
  | [] => by simp
  | a :: l => by
      by_cases hpa : p a
      · rw [List.filter_cons_of_pos hpa]
        simp only [List.length_cons, List.mem_cons]
        constructor
        · intro _
          exact ⟨a, Or.inl rfl, hpa⟩
        · intro _
          omega
      · rw [List.filter_cons_of_neg hpa]
        rw [filter_pos_iff_exists p l]
        simp only [List.mem_cons]
        constructor
        · rintro ⟨b, hb, hpb⟩
          exact ⟨b, Or.inr hb, hpb⟩
        · rintro ⟨b, hb | hb, hpb⟩
          · subst hb
            exact absurd hpb hpa
          · exact ⟨b, hb, hpb⟩

theorem foldl_max_mono : ∀ (l : List ℝ) (c d : ℝ), c ≤ d → l.foldl max c ≤ l.foldl max d
  | [], _, _, h => h
  | a :: l, c, d, h => by
      rw [List.foldl_cons, List.foldl_cons]
      exact foldl_max_mono l _ _ (max_le_max h (le_refl a))

theorem seed_le_foldl_max : ∀ (l : List ℝ) (c : ℝ), c ≤ l.foldl max c
  | [], _ => le_refl _
  | a :: l, c => by
      rw [List.foldl_cons]
      exact le_trans (le_max_left c a) (seed_le_foldl_max l (max c a))

theorem elem_le_foldl_max : ∀ (l : List ℝ) (c : ℝ) (a : ℝ), a ∈ l → a ≤ l.foldl max c
  | [], _, _, h => absurd h (List.not_mem_nil _)
  | b :: l, c, a, h => by
      rw [List.foldl_cons]
      rcases List.mem_cons.mp h with hab | hal
      · subst hab
        exact le_trans (le_max_right c a) (seed_le_foldl_max l _)
      · exact elem_le_foldl_max l _ a hal

theorem foldl_max_mem_or_seed : ∀ (l : List ℝ) (c : ℝ), l.foldl max c ∈ l ∨ l.foldl max c = c
  | [], c => Or.inr rfl
  | a :: l, c => by
      rw [List.foldl_cons]
      rcases foldl_max_mem_or_seed l (max c a) with h | h
      · exact Or.inl (List.mem_cons_of_mem a h)
      · rcases max_choice c a with hc | hc
        · rw [h, hc]
          exact Or.inr rfl
        · rw [h, hc]
          exact Or.inl (List.mem_cons_self a l)

theorem foldl_filter {α β : Type _} (q : α → Bool) (g : β → α → β) :
    ∀ (l : List α) (u : β),
      (l.filter q).foldl g u = l.foldl (fun v j => if q j then g v j else v) u
  | [], _ => rfl
  | a :: l, u => by
      by_cases hqa : q a
      · rw [List.filter_cons_of_pos hqa, List.foldl_cons, List.foldl_cons, if_pos hqa]
        exact foldl_filter q g l (g u a)
      · rw [List.filter_cons_of_neg hqa, List.foldl_cons, if_neg hqa]
        exact foldl_filter q g l u

theorem foldl_flatMap {α β γ : Type _} (f : α → List γ) (g : β → γ → β) :
    ∀ (l : List α) (u : β),
      (l.flatMap f).foldl g u = l.foldl (fun v i => (f i).foldl g v) u
  | [], _ => rfl
  | a :: l, u => by
      rw [List.flatMap_cons, List.foldl_append, List.foldl_cons]
      exact foldl_flatMap f g l _

theorem esp32_hebbian_hyperedges (u : Esp32LoomTopology) (a b : ℕ) (r : ℝ) :
    (esp32_loom_hebbian_update_pair u a b r).hyperedges = u.hyperedges := rfl

theorem esp32_hebbian_nodes_congr (u v : Esp32LoomTopology) (a b : ℕ) (r : ℝ)
    (h : u.nodes = v.nodes) :
    (esp32_loom_hebbian_update_pair u a b r).nodes
      = (esp32_loom_hebbian_update_pair v a b r).nodes := by
  simp only [esp32_loom_hebbian_update_pair]
  rw [h]

theorem esp32_inner_nodes_congr (p : ℕ → ℕ) (r : ℝ) (i : ℕ) :
    ∀ (l : List ℕ) (u v : Esp32LoomTopology), u.nodes = v.nodes →
      ((l.foldl (fun w j =>
          if i ≠ j then esp32_loom_hebbian_update_pair w (p i) (p j) r else w) u).nodes
        = (l.foldl (fun w j =>
            if i != j then esp32_loom_hebbian_update_pair w (p i) (p j) r else w) v).nodes)
  | [], _, _, h => h
  | j :: l, u, v, h => by
      rw [List.foldl_cons, List.foldl_cons]
      apply esp32_inner_nodes_congr
      by_cases hij : i = j
      · rw [if_neg (by simp [hij]), if_neg (by simp [hij])]
        exact h
      · rw [if_pos hij, if_pos (by simpa using hij)]
        exact esp32_hebbian_nodes_congr _ _ _ _ _ h

theorem esp32_nested_pairs_nodes_aux (p : ℕ → ℕ) (r : ℝ) (n : ℕ) :
    ∀ (l : List ℕ) (u v : Esp32LoomTopology), u.nodes = v.nodes →
      ((l.foldl (fun w i => (List.range n).foldl
          (fun w' j => if i ≠ j then esp32_loom_hebbian_update_pair w' (p i) (p j) r else w') w)
            u).nodes
        = ((l.flatMap fun i =>
              ((List.range n).filter fun j => i != j).map fun j => (i, j)).foldl
            (fun w q => esp32_loom_hebbian_update_pair w (p q.1) (p q.2) r) v).nodes)
  | [], _, _, h => h
  | i :: l, u, v, h => by
      rw [List.foldl_cons, List.flatMap_cons, List.foldl_append]
      apply esp32_nested_pairs_nodes_aux
      rw [List.foldl_map, foldl_filter]
      exact esp32_inner_nodes_congr p r i (List.range n) u v h

/-- The hyperedge record written by one `esp32_loom_compute_hyperedge` call:
smoothed state, and usage counter incremented exactly above the threshold. -/
theorem esp32_compute_hyperedge_hedge (t : Esp32LoomTopology) (hid : ℕ) :
    (esp32_loom_compute_hyperedge t hid).hyperedges hid =
      { t.hyperedges hid with
          processor_state := esp32HedgeSmoothed t hid,
          activation_count := (t.hyperedges hid).activation_count +
            (if ACTIVATION_THRESHOLD < esp32HedgeSmoothed t hid then 1 else 0) } := by
  have e1 : esp32HedgeSmoothed t hid
      = (t.hyperedges hid).processor_state * 0.9 +
        esp32HyperedgeNewState (t.hyperedges hid).processor_type
          ((t.hyperedges hid).participants.map (esp32Activation t)) * 0.1 := rfl
  simp only [esp32_loom_compute_hyperedge]
  rw [← e1]
  by_cases hc : ACTIVATION_THRESHOLD < esp32HedgeSmoothed t hid
  · rw [if_pos hc, if_pos hc]
    have hpres : ∀ (l : List ℕ) (u : Esp32LoomTopology),
        ((l.foldl (fun w i => (List.range (t.hyperedges hid).participants.length).foldl
          (fun w' j => if i ≠ j then esp32_loom_hebbian_update_pair w'
              ((t.hyperedges hid).participants.getD i 0)
              ((t.hyperedges hid).participants.getD j 0)
              (esp32HedgeSmoothed t hid * 0.01) else w') w) u).hyperedges = u.hyperedges) := by
      intro l u
      refine foldlPreserve _ (fun w : Esp32LoomTopology => w.hyperedges = u.hyperedges) _ _ rfl
        fun w i hw => ?_
      refine foldlPreserve _ (fun w' : Esp32LoomTopology => w'.hyperedges = u.hyperedges) _ _ hw
        fun w' j hw' => ?_
      by_cases hij : i ≠ j
      · rw [if_pos hij]
        show (esp32_loom_hebbian_update_pair _ _ _ _).hyperedges = u.hyperedges
        rw [esp32_hebbian_hyperedges]
        exact hw'
      · rw [if_neg hij]
        exact hw'
    rw [hpres]
    simp only [Function.update_same]
  · rw [if_neg hc, if_neg hc]
    simp only [Function.update_same]
    rfl

/-- The node store written by one `esp32_loom_compute_hyperedge` call: exactly
above the threshold, one Hebbian strengthening at rate `state * 0.01` for
every ordered pair of distinct participant positions; otherwise untouched. -/
theorem esp32_compute_hyperedge_nodes (t : Esp32LoomTopology) (hid : ℕ) :
    (esp32_loom_compute_hyperedge t hid).nodes =
      if ACTIVATION_THRESHOLD < esp32HedgeSmoothed t hid then
        ((specOrderedPairs (t.hyperedges hid).participants.length).foldl
          (fun u q => esp32_loom_hebbian_update_pair u
            ((t.hyperedges hid).participants.getD q.1 0)
            ((t.hyperedges hid).participants.getD q.2 0)
            (esp32HedgeSmoothed t hid * 0.01)) t).nodes
      else t.nodes := by
  have e1 : esp32HedgeSmoothed t hid
      = (t.hyperedges hid).processor_state * 0.9 +
        esp32HyperedgeNewState (t.hyperedges hid).processor_type
          ((t.hyperedges hid).participants.map (esp32Activation t)) * 0.1 := rfl
  simp only [esp32_loom_compute_hyperedge]
  rw [← e1]
  by_cases hc : ACTIVATION_THRESHOLD < esp32HedgeSmoothed t hid
  · rw [if_pos hc, if_pos hc]
    rw [specOrderedPairs]
    exact esp32_nested_pairs_nodes_aux
      (fun k => (t.hyperedges hid).participants.getD k 0) (esp32HedgeSmoothed t hid * 0.01)
      (t.hyperedges hid).participants.length
      (List.range (t.hyperedges hid).participants.length) _ t rfl
  · rw [if_neg hc, if_neg hc]

theorem activeCount_iff_all (acts : List ℝ) :
    ((acts.filter fun a => decide (ACTIVATION_THRESHOLD < a)).length = acts.length
      ↔ ∀ a ∈ acts, ACTIVATION_THRESHOLD < a) := by
  rw [length_filter_eq_iff_all]
  constructor
  · intro h a ha
    exact of_decide_eq_true (h a ha)
  · intro h a ha
    exact decide_eq_true (h a ha)

theorem activeCount_pos_iff_exists (acts : List ℝ) :
    (0 < (acts.filter fun a => decide (ACTIVATION_THRESHOLD < a)).length
      ↔ ∃ a ∈ acts, ACTIVATION_THRESHOLD < a) := by
  rw [filter_pos_iff_exists]
  constructor
  · rintro ⟨a, ha, hd⟩
    exact ⟨a, ha, of_decide_eq_true hd⟩
  · rintro ⟨a, ha, hd⟩
    exact ⟨a, ha, decide_eq_true hd⟩

theorem esp32NewState_AND (acts : List ℝ) :
    esp32HyperedgeNewState E.PROCESSOR_AND acts
      = if ∀ a ∈ acts, ACTIVATION_THRESHOLD < a then acts.sum / acts.length else 0 := by
  simp only [esp32HyperedgeNewState, if_true]
  rw [foldl_add_eq_sum, zero_add]
  exact if_congr (activeCount_iff_all acts) rfl rfl

theorem esp32NewState_OR (acts : List ℝ) :
    ((∃ a ∈ acts, ACTIVATION_THRESHOLD < a) →
        esp32HyperedgeNewState E.PROCESSOR_OR acts ∈ acts ∧
        ∀ a ∈ acts, a ≤ esp32HyperedgeNewState E.PROCESSOR_OR acts) ∧
    (¬(∃ a ∈ acts, ACTIVATION_THRESHOLD < a) →
        esp32HyperedgeNewState E.PROCESSOR_OR acts = 0) := by
  have hpt : esp32HyperedgeNewState E.PROCESSOR_OR acts
      = if 0 < (acts.filter fun a => decide (ACTIVATION_THRESHOLD < a)).length
        then acts.foldl max 0 else 0 := by
    simp only [esp32HyperedgeNewState, if_true]
    rw [if_neg (by decide)]
  constructor
  · intro hex
    rw [hpt, if_pos ((activeCount_pos_iff_exists acts).mpr hex)]
    obtain ⟨a, ha, hθa⟩ := hex
    rcases foldl_max_mem_or_seed acts 0 with hm | hm
    · exact ⟨hm, fun b hb => elem_le_foldl_max acts 0 b hb⟩
    · exfalso
      have hle := elem_le_foldl_max acts 0 a ha
      rw [hm] at hle
      unfold ACTIVATION_THRESHOLD at hθa
      linarith
  · intro hnex
    rw [hpt, if_neg fun hpos => hnex ((activeCount_pos_iff_exists acts).mp hpos)]

theorem esp32NewState_THRESHOLD (acts : List ℝ) :
    esp32HyperedgeNewState E.PROCESSOR_THRESHOLD acts
      = if 2 ≤ (acts.filter fun a => decide (ACTIVATION_THRESHOLD < a)).length
        then acts.sum / acts.length else 0 := by
  simp only [esp32HyperedgeNewState, if_true]
  rw [foldl_add_eq_sum, zero_add, if_neg (by decide), if_neg (by decide), if_neg (by decide)]

theorem esp32NewState_RESONANCE (acts : List ℝ) :
    esp32HyperedgeNewState E.PROCESSOR_RESONANCE acts
      = min (acts.sum / acts.length *
          (1 + ((acts.filter fun a => decide (ACTIVATION_THRESHOLD < a)).length : ℝ) * 0.1))
          1 := by
  simp only [esp32HyperedgeNewState, MAX_VECTOR_MAGNITUDE, if_true]
  rw [foldl_add_eq_sum, zero_add, if_neg (by decide), if_neg (by decide)]

theorem esp32NewState_default (pt : ℕ) (acts : List ℝ)
    (h0 : pt ≠ E.PROCESSOR_AND) (h1 : pt ≠ E.PROCESSOR_OR)
    (h3 : pt ≠ E.PROCESSOR_THRESHOLD) (h4 : pt ≠ E.PROCESSOR_RESONANCE) :
    esp32HyperedgeNewState pt acts = acts.sum / acts.length := by
  simp only [esp32HyperedgeNewState]
  rw [if_neg h0, if_neg h1, if_neg h4, if_neg h3, foldl_add_eq_sum, zero_add]

theorem kernFindInRow_none_iff (m : CSRMatrix) (rs re target : ℕ) :
    kernFindInRow m rs re target = none ↔
      ∀ i, rs ≤ i → i < re → m.col_idx i ≠ target := by
  rw [kernFindInRow, List.find?_eq_none]
  constructor
  · intro h i h1 h2 hc
    have hmem : i ∈ List.range' rs (re - rs) := List.mem_range'_1.mpr ⟨h1, by omega⟩
    have := h i hmem
    simp [hc] at this
  · intro h i hi
    have hm := List.mem_range'_1.mp hi
    simp only [beq_iff_eq]
    exact h i hm.1 (by omega)

theorem kernRowCols_mem (t : LoomTopology) (s c : ℕ) :
    c ∈ kernRowCols t s ↔
      ∃ i, t.edge_matrix.row_ptr s ≤ i ∧ i < t.edge_matrix.row_ptr (s + 1) ∧
        t.edge_matrix.col_idx i = c := by
  rw [kernRowCols]
  simp only [List.mem_map]
  constructor
  · rintro ⟨i, hi, hc⟩
    have hm := List.mem_range'_1.mp hi
    exact ⟨i, hm.1, by omega, hc⟩
  · rintro ⟨i, h1, h2, hc⟩
    exact ⟨i, List.mem_range'_1.mpr ⟨h1, by omega⟩, hc⟩

theorem kern_create_edge_found (t : LoomTopology) (source target : ℕ) (weight : ℝ)
    (i : ℕ)
    (hi : kernFindInRow t.edge_matrix (t.edge_matrix.row_ptr source)
        (t.edge_matrix.row_ptr (source + 1)) target = some i) :
    loom_create_edge t source target weight
      = { t with edge_matrix :=
          { t.edge_matrix with
              values := Function.update t.edge_matrix.values i weight } } := by
  simp only [loom_create_edge, hi]

theorem kern_create_edge_fields (t : LoomTopology) (source target : ℕ) (weight : ℝ)
    (hf : kernFindInRow t.edge_matrix (t.edge_matrix.row_ptr source)
        (t.edge_matrix.row_ptr (source + 1)) target = none) :
    (loom_create_edge t source target weight).edge_matrix.num_edges
        = t.edge_matrix.num_edges + 1 ∧
    (loom_create_edge t source target weight).num_nodes = t.num_nodes ∧
    (∀ j, (loom_create_edge t source target weight).edge_matrix.row_ptr j
        = if source + 1 ≤ j ∧ j ≤ t.num_nodes then t.edge_matrix.row_ptr j + 1
          else t.edge_matrix.row_ptr j) ∧
    (∀ i, (loom_create_edge t source target weight).edge_matrix.col_idx i
        = if i < t.edge_matrix.row_ptr (source + 1) then t.edge_matrix.col_idx i
          else if i = t.edge_matrix.row_ptr (source + 1) then target
          else if i ≤ t.edge_matrix.num_edges then t.edge_matrix.col_idx (i - 1)
          else t.edge_matrix.col_idx i) := by
  refine ⟨?_, ?_, fun j => ?_, fun i => ?_⟩ <;> simp only [loom_create_edge, hf]

theorem kern_create_edge_rowCols (t : LoomTopology) (source target : ℕ) (weight : ℝ)
    (hwf : CSRWF t) (hs : source < t.num_nodes)
    (hf : kernFindInRow t.edge_matrix (t.edge_matrix.row_ptr source)
        (t.edge_matrix.row_ptr (source + 1)) target = none)
    (s : ℕ) (hsn : s < t.num_nodes) :
    kernRowCols (loom_create_edge t source target weight) s
      = if s = source then kernRowCols t source ++ [target] else kernRowCols t s := by
  obtain ⟨hmono, hN, -⟩ := hwf
  obtain ⟨-, -, hrp, hcol⟩ := kern_create_edge_fields t source target weight hf
  have hre_rs : t.edge_matrix.row_ptr source ≤ t.edge_matrix.row_ptr (source + 1) :=
    hmono source (source + 1) (Nat.le_succ source) hs
  have hre_N : t.edge_matrix.row_ptr (source + 1) ≤ t.edge_matrix.num_edges := by
    have h1 := hmono (source + 1) t.num_nodes hs (le_refl _)
    omega
  rcases lt_trichotomy s source with hlt | heq | hgt
  · rw [if_neg (by omega)]
    simp only [kernRowCols]
    have h1 : (loom_create_edge t source target weight).edge_matrix.row_ptr s
        = t.edge_matrix.row_ptr s := by rw [hrp]; rw [if_neg (by omega)]
    have h2 : (loom_create_edge t source target weight).edge_matrix.row_ptr (s + 1)
        = t.edge_matrix.row_ptr (s + 1) := by rw [hrp]; rw [if_neg (by omega)]
    rw [h1, h2]
    refine List.map_congr_left fun i hi => ?_
    have hm := List.mem_range'_1.mp hi
    have h3 : t.edge_matrix.row_ptr s ≤ t.edge_matrix.row_ptr (s + 1) :=
      hmono s (s + 1) (Nat.le_succ s) (by omega)
    have h4 : t.edge_matrix.row_ptr (s + 1) ≤ t.edge_matrix.row_ptr source :=
      hmono (s + 1) source (by omega) (by omega)
    rw [hcol i, if_pos (by omega)]
  · rw [heq, if_pos rfl]
    simp only [kernRowCols]
    have h1 : (loom_create_edge t source target weight).edge_matrix.row_ptr source
        = t.edge_matrix.row_ptr source := by rw [hrp]; rw [if_neg (by omega)]
    have h2 : (loom_create_edge t source target weight).edge_matrix.row_ptr (source + 1)
        = t.edge_matrix.row_ptr (source + 1) + 1 := by
      rw [hrp]; rw [if_pos ⟨le_refl _, hs⟩]
    rw [h1, h2]
    have hlen : t.edge_matrix.row_ptr (source + 1) + 1 - t.edge_matrix.row_ptr source
        = (t.edge_matrix.row_ptr (source + 1) - t.edge_matrix.row_ptr source) + 1 := by
      omega
    rw [hlen, List.range'_concat, List.map_append]
    congr 1
    · refine List.map_congr_left fun i hi => ?_
      have hm := List.mem_range'_1.mp hi
      rw [hcol i, if_pos (by omega)]
    · have h3 : t.edge_matrix.row_ptr source
          + 1 * (t.edge_matrix.row_ptr (source + 1) - t.edge_matrix.row_ptr source)
          = t.edge_matrix.row_ptr (source + 1) := by omega
      rw [h3]
      simp only [List.map_cons, List.map_nil]
      rw [hcol, if_neg (by omega), if_pos rfl]
  · rw [if_neg (by omega)]
    simp only [kernRowCols]
    have h1 : (loom_create_edge t source target weight).edge_matrix.row_ptr s
        = t.edge_matrix.row_ptr s + 1 := by
      rw [hrp]; rw [if_pos ⟨by omega, by omega⟩]
    have h2 : (loom_create_edge t source target weight).edge_matrix.row_ptr (s + 1)
        = t.edge_matrix.row_ptr (s + 1) + 1 := by
      rw [hrp]; rw [if_pos ⟨by omega, by omega⟩]
    rw [h1, h2]
    have hlen : t.edge_matrix.row_ptr (s + 1) + 1 - (t.edge_matrix.row_ptr s + 1)
        = t.edge_matrix.row_ptr (s + 1) - t.edge_matrix.row_ptr s := by omega
    rw [hlen, List.range'_eq_map_range, List.range'_eq_map_range, List.map_map,
      List.map_map]
    refine List.map_congr_left fun k hk => ?_
    have hkn := List.mem_range.mp hk
    have h3 : t.edge_matrix.row_ptr (source + 1) ≤ t.edge_matrix.row_ptr s :=
      hmono (source + 1) s (by omega) (by omega)
    have h4 : t.edge_matrix.row_ptr (s + 1) ≤ t.edge_matrix.num_edges := by
      have h5 := hmono (s + 1) t.num_nodes hsn (le_refl _)
      omega
    simp only [Function.comp_apply]
    rw [hcol, if_neg (by omega), if_neg (by omega), if_pos (by omega)]
    congr 1
    omega

/-! ## Claim theorems -/

/-- C1: one `esp32_loom_compute_hyperedge` call on a hyperedge with a
non-empty participant set computes the raw `new_state` from the participant
activations by processor type — AND: average exactly when all participants
exceed the activation threshold, else 0; OR: the maximum participant
activation when any participant exceeds the threshold, else 0; THRESHOLD
(with `k = 2` hard-coded in the source): average when at least 2 participants
are active, else 0; RESONANCE: average times `(1 + active_count*0.1)` capped
at 1; any other type: plain average — then writes the smoothed state
`0.9*old + 0.1*new`, and exactly when that smoothed state exceeds the
threshold it increments the usage counter and applies one
`esp32_loom_hebbian_update_pair` at rate `state*0.01` to every ordered pair
of distinct participant positions (`specOrderedPairs`). -/
theorem C1_hyperedge_step (t : Esp32LoomTopology) (hid : ℕ)
    (hp : (t.hyperedges hid).participants ≠ []) :
    ((esp32_loom_compute_hyperedge t hid).hyperedges hid).processor_state
        = esp32HedgeSmoothed t hid ∧
    ((esp32_loom_compute_hyperedge t hid).hyperedges hid).activation_count
        = (t.hyperedges hid).activation_count +
          (if ACTIVATION_THRESHOLD < esp32HedgeSmoothed t hid then 1 else 0) ∧
    ((t.hyperedges hid).processor_type = E.PROCESSOR_AND →
        esp32HedgeNewState t hid =
          if ∀ a ∈ esp32HedgeActs t hid, ACTIVATION_THRESHOLD < a
          then (esp32HedgeActs t hid).sum / (esp32HedgeActs t hid).length else 0) ∧
    ((t.hyperedges hid).processor_type = E.PROCESSOR_OR →
        ((∃ a ∈ esp32HedgeActs t hid, ACTIVATION_THRESHOLD < a) →
            esp32HedgeNewState t hid ∈ esp32HedgeActs t hid ∧
            ∀ a ∈ esp32HedgeActs t hid, a ≤ esp32HedgeNewState t hid) ∧
        (¬(∃ a ∈ esp32HedgeActs t hid, ACTIVATION_THRESHOLD < a) →
            esp32HedgeNewState t hid = 0)) ∧
    ((t.hyperedges hid).processor_type = E.PROCESSOR_THRESHOLD →
        esp32HedgeNewState t hid =
          if 2 ≤ ((esp32HedgeActs t hid).filter
              fun a => decide (ACTIVATION_THRESHOLD < a)).length
          then (esp32HedgeActs t hid).sum / (esp32HedgeActs t hid).length else 0) ∧
    ((t.hyperedges hid).processor_type = E.PROCESSOR_RESONANCE →
        esp32HedgeNewState t hid =
          min ((esp32HedgeActs t hid).sum / (esp32HedgeActs t hid).length *
              (1 + (((esp32HedgeActs t hid).filter
                fun a => decide (ACTIVATION_THRESHOLD < a)).length : ℝ) * 0.1)) 1) ∧
    ((t.hyperedges hid).processor_type ≠ E.PROCESSOR_AND →
      (t.hyperedges hid).processor_type ≠ E.PROCESSOR_OR →
      (t.hyperedges hid).processor_type ≠ E.PROCESSOR_THRESHOLD →
      (t.hyperedges hid).processor_type ≠ E.PROCESSOR_RESONANCE →
        esp32HedgeNewState t hid
          = (esp32HedgeActs t hid).sum / (esp32HedgeActs t hid).length) ∧
    (ACTIVATION_THRESHOLD < esp32HedgeSmoothed t hid →
        (esp32_loom_compute_hyperedge t hid).nodes =
          ((specOrderedPairs (t.hyperedges hid).participants.length).foldl
            (fun u q => esp32_loom_hebbian_update_pair u
              ((t.hyperedges hid).participants.getD q.1 0)
              ((t.hyperedges hid).participants.getD q.2 0)
              (esp32HedgeSmoothed t hid * 0.01)) t).nodes) ∧
    (¬ ACTIVATION_THRESHOLD < esp32HedgeSmoothed t hid →
        (esp32_loom_compute_hyperedge t hid).nodes = t.nodes) := by
  have hns : esp32HedgeNewState t hid
      = esp32HyperedgeNewState (t.hyperedges hid).processor_type (esp32HedgeActs t hid) := rfl
  refine ⟨?_, ?_, ?_, ?_, ?_, ?_, ?_, ?_, ?_⟩
  · rw [esp32_compute_hyperedge_hedge]
  · rw [esp32_compute_hyperedge_hedge]
  · intro hpt
    rw [hns, hpt, esp32NewState_AND]
  · intro hpt
    rw [hns, hpt]
    exact esp32NewState_OR (esp32HedgeActs t hid)
  · intro hpt
    rw [hns, hpt, esp32NewState_THRESHOLD]
  · intro hpt
    rw [hns, hpt, esp32NewState_RESONANCE]
  · intro h0 h1 h3 h4
    rw [hns, esp32NewState_default _ _ h0 h1 h3 h4]
  · intro hc
    rw [esp32_compute_hyperedge_nodes, if_pos hc]
  · intro hc
    rw [esp32_compute_hyperedge_nodes, if_neg hc]

/-- Witness for C1 at the concrete topology `esp32QuietTopo`, whose hyperedge
0 has participants `[0, 1]`. -/
theorem C1_hyperedge_step_witness :
    (esp32QuietTopo.hyperedges 0).participants ≠ [] ∧
    ((esp32_loom_compute_hyperedge esp32QuietTopo 0).hyperedges 0).processor_state
      = esp32HedgeSmoothed esp32QuietTopo 0 := by
  have hp : (esp32QuietTopo.hyperedges 0).participants ≠ [] := by
    show ([0, 1] : List ℕ) ≠ []
    decide
  exact ⟨hp, (C1_hyperedge_step esp32QuietTopo 0 hp).1⟩

/-- C2: for every identifier, previous slot contents and random draws, the
node vector created by `loom_weave_node` has unit L2 norm, and its hyperbolic
sub-vector (dimensions 4–19) has Euclidean norm strictly below 1: the
pre-normalization vector always has squared magnitude at least 9 outside the
hyperbolic zone (emotional zone 32 × 0.5² plus the metadata active flag), so
normalization succeeds and the hyperbolic share stays below the whole. -/
theorem C2_weave_unit_norm (t : LoomTopology) (identifier : List ℕ) (env : KernEnv) :
    Real.sqrt (loomNormSq ((loom_weave_node t identifier env).2.node_bank
      (loom_weave_node t identifier env).1)) = 1 ∧
    Real.sqrt (kernHypSumSq ((loom_weave_node t identifier env).2.node_bank
      (loom_weave_node t identifier env).1)) < 1 := by
  have hbank : (loom_weave_node t identifier env).2.node_bank
      (loom_weave_node t identifier env).1 =
      loom_init_vector (t.node_bank t.num_nodes) (loom_hash_string identifier) env := by
    unfold loom_weave_node
    simp
  rw [hbank]
  obtain ⟨h1, _h2, h3⟩ :=
    kernInit_norm_facts (t.node_bank t.num_nodes) (loom_hash_string identifier) env
  refine ⟨by rw [h1]; exact Real.sqrt_one, ?_⟩
  have h0 := kernHypSumSq_nonneg
    (loom_init_vector (t.node_bank t.num_nodes) (loom_hash_string identifier) env)
  have := Real.sqrt_lt_sqrt h0 h3
  rwa [Real.sqrt_one] at this

/-- C5: the hyperbolic zone stays inside the `0.99` ball.  Unconditionally,
`loom_project_to_poincare` returns a block of norm at most `0.99` (rescaling
uniformly exactly when the radius reaches or exceeds `0.99`); and each
mutating operation — `loom_weave_node`, `loom_apply_hebbian_learning` (which
projects both touched nodes), and a full `loom_kernel_cycle` (whose
trajectory phase is spec-modelled as activation-only) — maps a topology in
which every node's hyperbolic norm is ≤ 0.99 to another such topology. -/
theorem C5_hyperbolic_ball_invariant :
    (∀ h : ℕ → ℝ, Real.sqrt (hypBlockSq (loom_project_to_poincare h)) ≤ 0.99) ∧
    (∀ (t : LoomTopology) (a b : ℕ) (rate : ℝ),
        HypOK t → HypOK (loom_apply_hebbian_learning t a b rate)) ∧
    (∀ (t : LoomTopology) (idf : List ℕ) (env : KernEnv),
        HypOK t → HypOK (loom_weave_node t idf env).2) ∧
    (∀ (t : LoomTopology) (dt : ℝ), HypOK t → HypOK (loom_kernel_cycle t dt)) :=
  ⟨loom_project_le, kern_hebbian_HypOK, kern_weave_HypOK, kern_cycle_HypOK⟩

/-- Witness for C5 at a concrete all-zero topology. -/
theorem C5_hyperbolic_ball_invariant_witness :
    HypOK kernCapTopo ∧
    HypOK (loom_apply_hebbian_learning kernCapTopo 0 1 1) ∧
    HypOK (loom_weave_node kernCapTopo [97] kernEnv0).2 ∧
    HypOK (loom_kernel_cycle kernCapTopo (1 / 100)) := by
  have h : HypOK kernCapTopo := by
    intro n
    have hz : kernHypSumSq (kernCapTopo.node_bank n) = 0 := by
      unfold kernHypSumSq hypBlockSq hypBlock
      simp [kernCapTopo, zeroVec256]
    rw [hz, Real.sqrt_zero]
    norm_num
  exact ⟨h, C5_hyperbolic_ball_invariant.2.1 kernCapTopo 0 1 1 h,
    C5_hyperbolic_ball_invariant.2.2.1 kernCapTopo [97] kernEnv0 h,
    C5_hyperbolic_ball_invariant.2.2.2 kernCapTopo (1 / 100) h⟩

/-- C6 (amended): for distinct nodes `a ≠ b`, a rate in `(0, 10)` and
semantic zones that are not identical, one `loom_apply_hebbian_learning`
call strictly decreases the Euclidean distance between the two semantic
zones (measured after the zone updates; the kernel performs no
renormalization): every semantic difference is multiplied by `1 - 0.2*rate`.
At `rate = 10` the distance is unchanged and beyond it grows, and identical
zones stay at distance 0 — see the counterexample. -/
theorem C6_semantic_contraction (t : LoomTopology) (a b : ℕ) (rate : ℝ)
    (hab : a ≠ b) (h0 : 0 < rate) (h10 : rate < 10) (hd : semDistSq t a b ≠ 0) :
    semDist (loom_apply_hebbian_learning t a b rate) a b < semDist t a b := by
  have hsc := kern_hebbian_semDistSq t a b rate hab
  have hdpos : 0 < semDistSq t a b := lt_of_le_of_ne (semDistSq_nonneg t a b) (Ne.symm hd)
  have hfac : (1 - 0.2 * rate) ^ 2 < 1 := by nlinarith
  have hlt : semDistSq (loom_apply_hebbian_learning t a b rate) a b < semDistSq t a b := by
    rw [hsc]
    calc (1 - 0.2 * rate) ^ 2 * semDistSq t a b
        < 1 * semDistSq t a b := mul_lt_mul_of_pos_right hfac hdpos
      _ = semDistSq t a b := one_mul _
  unfold semDist
  exact Real.sqrt_lt_sqrt (semDistSq_nonneg _ _ _) hlt

/-- C6 counterexample refuting the claim as stated (`rate > 0` alone does not
suffice): at `rate = 10` the semantic stage multiplies every semantic
difference by `1 - 0.2*10 = -1`, so the distance between the two distinct
nodes of `kernSemTopo` is unchanged, not strictly decreased; and for nodes
with identical (zero) semantic zones the distance stays `0` at `rate = 1`. -/
theorem C6_semantic_contraction_counterexample :
    ((0 : ℝ) < 10 ∧
      ¬ semDist (loom_apply_hebbian_learning kernSemTopo 0 1 10) 0 1
          < semDist kernSemTopo 0 1) ∧
    ((0 : ℝ) < 1 ∧
      ¬ semDist (loom_apply_hebbian_learning kernCapTopo 0 1 1) 0 1
          < semDist kernCapTopo 0 1) := by
  constructor
  · refine ⟨by norm_num, ?_⟩
    have hsc := kern_hebbian_semDistSq kernSemTopo 0 1 10 (by decide)
    have heq : semDistSq (loom_apply_hebbian_learning kernSemTopo 0 1 10) 0 1
        = semDistSq kernSemTopo 0 1 := by
      rw [hsc]
      norm_num
    unfold semDist
    rw [heq]
    exact lt_irrefl _
  · refine ⟨by norm_num, ?_⟩
    have hz : semDistSq kernCapTopo 0 1 = 0 := by
      unfold semDistSq
      simp [kernCapTopo, zeroVec256]
    have hsc := kern_hebbian_semDistSq kernCapTopo 0 1 1 (by decide)
    have heq : semDistSq (loom_apply_hebbian_learning kernCapTopo 0 1 1) 0 1
        = semDistSq kernCapTopo 0 1 := by
      rw [hsc, hz]
      ring
    unfold semDist
    rw [heq]
    exact lt_irrefl _

/-- Witness for the amended C6 at the concrete two-node topology with
distinct semantic zones and `rate = 1`. -/
theorem C6_semantic_contraction_witness :
    (0 : ℕ) ≠ 1 ∧ (0 : ℝ) < 1 ∧ (1 : ℝ) < 10 ∧ semDistSq kernSemTopo 0 1 ≠ 0 ∧
    semDist (loom_apply_hebbian_learning kernSemTopo 0 1 1) 0 1 < semDist kernSemTopo 0 1 := by
  have hterm : ∀ j ∈ Finset.range 64,
      (kernSemTopo.node_bank 1 (K.VEC_SEMANTIC + j) -
          kernSemTopo.node_bank 0 (K.VEC_SEMANTIC + j)) *
        (kernSemTopo.node_bank 1 (K.VEC_SEMANTIC + j) -
          kernSemTopo.node_bank 0 (K.VEC_SEMANTIC + j))
      = if j = 0 then 1 else 0 := by
    intro j _
    by_cases hj : j = 0
    · subst hj
      simp [kernSemTopo, zeroVec256, K.VEC_SEMANTIC]
    · simp [kernSemTopo, zeroVec256, K.VEC_SEMANTIC, add_right_eq_self, hj]
  have h1 : semDistSq kernSemTopo 0 1 = 1 := by
    unfold semDistSq
    rw [Finset.sum_congr rfl hterm, Finset.sum_ite_eq' (Finset.range 64) 0 fun _ => (1 : ℝ)]
    norm_num
  have hne : semDistSq kernSemTopo 0 1 ≠ 0 := by
    rw [h1]
    norm_num
  exact ⟨by decide, by norm_num, by norm_num,
    hne, C6_semantic_contraction kernSemTopo 0 1 1 (by decide) (by norm_num) (by norm_num) hne⟩

/-- C9: for every ESP32 topology whose total node activation is 0, the
computed emergence metric is exactly 0: `esp32_loom_compute_emergence`
divides only under a strict positivity test on the summed node activity, so
the zero-denominator case resolves to 0 (and, in the float code, no NaN). -/
theorem C9_emergence_metric_zero (t : Esp32LoomTopology)
    (h : esp32NodeActivity t = 0) : esp32_loom_compute_emergence t = 0 := by
  unfold esp32_loom_compute_emergence
  simp [h]

/-- Witness for C9 at a concrete two-node topology with zero activations and
one active hyperedge. -/
theorem C9_emergence_metric_zero_witness :
    esp32NodeActivity esp32QuietTopo = 0 ∧
    esp32_loom_compute_emergence esp32QuietTopo = 0 := by
  have h : esp32NodeActivity esp32QuietTopo = 0 := by
    show (List.range 2).foldl (fun acc i => acc + esp32Activation esp32QuietTopo i) 0 = 0
    simp [List.range_succ, esp32Activation, esp32QuietTopo, zeroVec32]
  exact ⟨h, C9_emergence_metric_zero _ h⟩

/-- C10: renormalization leaves an all-zero vector unchanged (the division is
guarded by `magnitude > 0`, so it never divides by zero), and the unit-L2-norm
postcondition holds exactly for inputs of nonzero magnitude — in both the
ESP32 (`esp32_loom_normalize_vector`) and the generic kernel
(`loom_normalize_vector`) implementations. -/
theorem C10_normalize_guard :
    (∀ v : Vec32, (∀ i, v i = 0) → esp32_loom_normalize_vector v = v) ∧
    (∀ v : Vec32, 0 < esp32NormSq v →
        Real.sqrt (esp32NormSq (esp32_loom_normalize_vector v)) = 1) ∧
    (∀ v : Vec256, (∀ i, v i = 0) → loom_normalize_vector v = v) ∧
    (∀ v : Vec256, 0 < loomNormSq v →
        Real.sqrt (loomNormSq (loom_normalize_vector v)) = 1) := by
  refine ⟨esp32_normalize_zero, fun v h => ?_, kern_normalize_zero, fun v h => ?_⟩
  · rw [esp32_normalize_unit v h]
    exact Real.sqrt_one
  · rw [kern_normalize_unit v h]
    exact Real.sqrt_one

/-- Witness for C10 at the zero vector and a one-hot vector, in both
dimensions. -/
theorem C10_normalize_guard_witness :
    (esp32_loom_normalize_vector zeroVec32 = zeroVec32 ∧
      loom_normalize_vector zeroVec256 = zeroVec256) ∧
    (0 < esp32NormSq oneHotVec32 ∧
      Real.sqrt (esp32NormSq (esp32_loom_normalize_vector oneHotVec32)) = 1) ∧
    (0 < loomNormSq oneHotVec256 ∧
      Real.sqrt (loomNormSq (loom_normalize_vector oneHotVec256)) = 1) := by
  have h32 : esp32NormSq oneHotVec32 = 4 := by
    have hterm : ∀ i : ℕ, oneHotVec32 i * oneHotVec32 i = if i = 0 then 4 else 0 := by
      intro i
      unfold oneHotVec32
      split <;> norm_num
    unfold esp32NormSq
    rw [Finset.sum_congr rfl fun i _ => hterm i,
      Finset.sum_ite_eq' (Finset.range E.ESP32_NODE_DIMENSIONS) 0 (fun _ => (4 : ℝ))]
    simp [E.ESP32_NODE_DIMENSIONS]
  have h256 : loomNormSq oneHotVec256 = 4 := by
    have hterm : ∀ i : ℕ, oneHotVec256 i * oneHotVec256 i = if i = 0 then 4 else 0 := by
      intro i
      unfold oneHotVec256
      split <;> norm_num
    unfold loomNormSq
    rw [Finset.sum_congr rfl fun i _ => hterm i,
      Finset.sum_ite_eq' (Finset.range K.LOOM_NODE_DIMENSIONS) 0 (fun _ => (4 : ℝ))]
    simp [K.LOOM_NODE_DIMENSIONS]
  refine ⟨⟨C10_normalize_guard.1 zeroVec32 fun i => rfl,
           C10_normalize_guard.2.2.1 zeroVec256 fun i => rfl⟩, ⟨?_, ?_⟩, ⟨?_, ?_⟩⟩
  · rw [h32]; norm_num
  · exact C10_normalize_guard.2.1 oneHotVec32 (by rw [h32]; norm_num)
  · rw [h256]; norm_num
  · exact C10_normalize_guard.2.2.2 oneHotVec256 (by rw [h256]; norm_num)

/-- C7 (kernel side is a code bug): the ESP32 `esp32_loom_weave_node` fails
(`0xFFFF`, modelled `none`) exactly when `num_nodes` has reached
`ESP32_MAX_NODES`, and otherwise returns the id `num_nodes` and increments the
counter — ids are handed out in strictly increasing order and never reused.
The generic kernel `loom_weave_node`, by contrast, performs no capacity check:
at a topology already holding 4 nodes of a 4-node bank it still "succeeds",
returning id 4 and growing the count (an out-of-bounds write in the C code). -/
theorem C7_weave_capacity :
    (∀ (t : Esp32LoomTopology) (idf : List ℕ) (r : ℕ → ℝ),
        (esp32_loom_weave_node t idf r).1 = none ↔ E.ESP32_MAX_NODES ≤ t.num_nodes) ∧
    (∀ (t : Esp32LoomTopology) (idf : List ℕ) (r : ℕ → ℝ),
        t.num_nodes < E.ESP32_MAX_NODES →
        (esp32_loom_weave_node t idf r).1 = some t.num_nodes ∧
        (esp32_loom_weave_node t idf r).2.num_nodes = t.num_nodes + 1) ∧
    (loom_weave_node kernCapTopo [120] kernEnv0).1 = 4 ∧
    (loom_weave_node kernCapTopo [120] kernEnv0).2.num_nodes = 5 := by
  refine ⟨fun t idf r => ?_, fun t idf r h => ?_, rfl, rfl⟩
  · unfold esp32_loom_weave_node
    by_cases h : E.ESP32_MAX_NODES ≤ t.num_nodes
    · simp [h]
    · simp [h]
  · unfold esp32_loom_weave_node
    rw [if_neg (not_le.mpr h)]
    exact ⟨rfl, rfl⟩

/-- Witness for C7 at a concrete non-full topology. -/
theorem C7_weave_capacity_witness :
    esp32QuietTopo.num_nodes < E.ESP32_MAX_NODES ∧
    (esp32_loom_weave_node esp32QuietTopo [97] rand0).1 = some 2 ∧
    (esp32_loom_weave_node esp32QuietTopo [97] rand0).2.num_nodes = 3 := by
  have h : esp32QuietTopo.num_nodes < E.ESP32_MAX_NODES := by decide
  obtain ⟨h1, h2⟩ := C7_weave_capacity.2.1 esp32QuietTopo [97] rand0 h
  exact ⟨h, h1, h2⟩

/-- C3 (amended): ESP32 `weave`, `create_edge` and `create_hyperedge` leave
the topology unchanged whenever they report failure, and
`create_bidirectional` leaves it unchanged when its first insert fails; but
when the first insert succeeds and the second fails, the reported failure
leaves the topology at the state after the first insert (a partial insert —
see the counterexample).  The generic kernel `loom_create_hyperedge` reports
no failure at all (it returns the next id unconditionally). -/
theorem C3_construction_failure_atomicity :
    (∀ (t : Esp32LoomTopology) (idf : List ℕ) (r : ℕ → ℝ),
        (esp32_loom_weave_node t idf r).1 = none →
        (esp32_loom_weave_node t idf r).2 = t) ∧
    (∀ (t : Esp32LoomTopology) (s d : ℕ) (w : ℝ) (f : ℕ),
        (esp32_loom_create_edge t s d w f).1 ≠ EspErr.espOk →
        (esp32_loom_create_edge t s d w f).2 = t) ∧
    (∀ (t : Esp32LoomTopology) (ps : List ℕ) (ty : ℕ),
        (esp32_loom_create_hyperedge t ps ty).1 = none →
        (esp32_loom_create_hyperedge t ps ty).2 = t) ∧
    (∀ (t : Esp32LoomTopology) (a b : ℕ) (w : ℝ),
        (esp32_loom_create_edge t a b w E.EDGE_FLAG_BIDIRECTIONAL).1 ≠ EspErr.espOk →
        (esp32_loom_create_bidirectional t a b w).2 = t) ∧
    (∀ (t : Esp32LoomTopology) (a b : ℕ) (w : ℝ),
        (esp32_loom_create_edge t a b w E.EDGE_FLAG_BIDIRECTIONAL).1 = EspErr.espOk →
        (esp32_loom_create_edge (esp32_loom_create_edge t a b w E.EDGE_FLAG_BIDIRECTIONAL).2
            b a w E.EDGE_FLAG_BIDIRECTIONAL).1 ≠ EspErr.espOk →
        (esp32_loom_create_bidirectional t a b w).2 =
          (esp32_loom_create_edge t a b w E.EDGE_FLAG_BIDIRECTIONAL).2) ∧
    (∀ (t : LoomTopology) (ps : List ℕ),
        (loom_create_hyperedge t ps).1 = t.num_hyperedges) := by
  have ce_unchanged : ∀ (t : Esp32LoomTopology) (s d : ℕ) (w : ℝ) (f : ℕ),
      (esp32_loom_create_edge t s d w f).1 ≠ EspErr.espOk →
      (esp32_loom_create_edge t s d w f).2 = t := by
    intro t s d w f h
    unfold esp32_loom_create_edge at *
    by_cases h1 : E.ESP32_MAX_EDGES ≤ t.num_edges
    · simp [h1]
    · by_cases h2 : t.num_nodes ≤ s ∨ t.num_nodes ≤ d
      · simp [h1, h2]
      · exfalso
        apply h
        rw [if_neg h1, if_neg h2]
        cases hf : esp32FindEdge t.edges t.num_edges d <;> simp [hf]
  refine ⟨fun t idf r h => ?_, ce_unchanged, fun t ps ty h => ?_, fun t a b w h => ?_,
          fun t a b w h1 h2 => ?_, fun t ps => rfl⟩
  · unfold esp32_loom_weave_node at *
    by_cases hc : E.ESP32_MAX_NODES ≤ t.num_nodes
    · simp [hc]
    · simp [hc] at h
  · unfold esp32_loom_create_hyperedge at *
    by_cases hc : E.ESP32_MAX_HYPEREDGES ≤ t.num_hyperedges ∨ 6 < ps.length
    · simp [hc]
    · simp [hc] at h
  · unfold esp32_loom_create_bidirectional
    rw [if_pos h]
    exact ce_unchanged t a b w E.EDGE_FLAG_BIDIRECTIONAL h
  · unfold esp32_loom_create_bidirectional
    rw [if_neg (by simp [h1]), if_pos h2]
    exact ce_unchanged _ b a w E.EDGE_FLAG_BIDIRECTIONAL h2

set_option maxRecDepth 8000 in
/-- C3 counterexample refuting the claim as stated: at a topology one slot
below the edge capacity, `esp32_loom_create_bidirectional 0 1` reports
failure (`ESP_ERR_NO_MEM` from its second insert) yet the topology has
changed — the first directed edge stayed inserted and `num_edges` grew from
2047 to 2048, so the failed call did not leave the topology unchanged. -/
theorem C3_construction_failure_counterexample :
    (esp32_loom_create_bidirectional esp32BoundaryTopo 0 1 (1 / 2)).1 ≠ EspErr.espOk ∧
    (esp32_loom_create_bidirectional esp32BoundaryTopo 0 1 (1 / 2)).2.num_edges = 2048 ∧
    esp32BoundaryTopo.num_edges = 2047 := by
  obtain ⟨h1, hn⟩ := esp32Boundary_insert
  have h2 : esp32_loom_create_edge
      (esp32_loom_create_edge esp32BoundaryTopo 0 1 (1 / 2) E.EDGE_FLAG_BIDIRECTIONAL).2
      1 0 (1 / 2) E.EDGE_FLAG_BIDIRECTIONAL =
      (EspErr.espErrNoMem,
        (esp32_loom_create_edge esp32BoundaryTopo 0 1 (1 / 2) E.EDGE_FLAG_BIDIRECTIONAL).2) := by
    refine esp32_create_edge_fail_capacity _ _ _ _ _ ?_
    rw [hn]
    decide
  have hbi : esp32_loom_create_bidirectional esp32BoundaryTopo 0 1 (1 / 2) =
      (EspErr.espErrNoMem,
        (esp32_loom_create_edge esp32BoundaryTopo 0 1 (1 / 2) E.EDGE_FLAG_BIDIRECTIONAL).2) := by
    unfold esp32_loom_create_bidirectional
    rw [if_neg fun hne => hne h1, h2]
    exact if_pos espErrNoMem_ne_ok
  rw [hbi]
  exact ⟨espErrNoMem_ne_ok, hn, rfl⟩

/-- Witness for the amended C3 at concrete failing inputs: a full node table,
a full edge table, an oversized participant list, a full edge table for the
first insert of `create_bidirectional`, and the one-slot-left topology for
its second insert. -/
theorem C3_construction_failure_atomicity_witness :
    ((esp32_loom_weave_node esp32FullNodesTopo [97] rand0).1 = none ∧
      (esp32_loom_weave_node esp32FullNodesTopo [97] rand0).2 = esp32FullNodesTopo) ∧
    ((esp32_loom_create_edge esp32FullEdgesTopo 0 1 (1 / 2) 0).1 ≠ EspErr.espOk ∧
      (esp32_loom_create_edge esp32FullEdgesTopo 0 1 (1 / 2) 0).2 = esp32FullEdgesTopo) ∧
    ((esp32_loom_create_hyperedge esp32QuietTopo [0, 1, 0, 1, 0, 1, 0] 0).1 = none ∧
      (esp32_loom_create_hyperedge esp32QuietTopo [0, 1, 0, 1, 0, 1, 0] 0).2 = esp32QuietTopo) ∧
    ((esp32_loom_create_bidirectional esp32FullEdgesTopo 0 1 (1 / 2)).2 = esp32FullEdgesTopo) ∧
    ((esp32_loom_create_bidirectional esp32BoundaryTopo 0 1 (1 / 2)).2 =
      (esp32_loom_create_edge esp32BoundaryTopo 0 1 (1 / 2) E.EDGE_FLAG_BIDIRECTIONAL).2) := by
  have hwf : (esp32_loom_weave_node esp32FullNodesTopo [97] rand0).1 = none := by
    unfold esp32_loom_weave_node
    rw [if_pos (by decide)]
  have hce : esp32_loom_create_edge esp32FullEdgesTopo 0 1 (1 / 2) 0 =
      (EspErr.espErrNoMem, esp32FullEdgesTopo) :=
    esp32_create_edge_fail_capacity _ _ _ _ _ (by decide)
  have hce1 : esp32_loom_create_edge esp32FullEdgesTopo 0 1 (1 / 2) E.EDGE_FLAG_BIDIRECTIONAL =
      (EspErr.espErrNoMem, esp32FullEdgesTopo) :=
    esp32_create_edge_fail_capacity _ _ _ _ _ (by decide)
  have hhe : (esp32_loom_create_hyperedge esp32QuietTopo [0, 1, 0, 1, 0, 1, 0] 0).1 = none := by
    unfold esp32_loom_create_hyperedge
    rw [if_pos (by right; decide)]
  obtain ⟨hb1, hbn⟩ := esp32Boundary_insert
  have hb2 : (esp32_loom_create_edge
      (esp32_loom_create_edge esp32BoundaryTopo 0 1 (1 / 2) E.EDGE_FLAG_BIDIRECTIONAL).2
      1 0 (1 / 2) E.EDGE_FLAG_BIDIRECTIONAL).1 ≠ EspErr.espOk := by
    rw [esp32_create_edge_fail_capacity _ _ _ _ _ (by rw [hbn]; decide)]
    exact espErrNoMem_ne_ok
  have hceFail : (esp32_loom_create_edge esp32FullEdgesTopo 0 1 (1 / 2) 0).1 ≠ EspErr.espOk := by
    rw [hce]
    exact espErrNoMem_ne_ok
  have hce1Fail : (esp32_loom_create_edge esp32FullEdgesTopo 0 1 (1 / 2)
      E.EDGE_FLAG_BIDIRECTIONAL).1 ≠ EspErr.espOk := by
    rw [hce1]
    exact espErrNoMem_ne_ok
  refine ⟨⟨hwf, C3_construction_failure_atomicity.1 _ _ _ hwf⟩,
          ⟨hceFail, C3_construction_failure_atomicity.2.1 _ _ _ _ _ hceFail⟩,
          ⟨hhe, C3_construction_failure_atomicity.2.2.1 _ _ _ hhe⟩,
          C3_construction_failure_atomicity.2.2.2.1 _ _ _ _ hce1Fail,
          C3_construction_failure_atomicity.2.2.2.2.1 _ _ _ _ hb1 hb2⟩

/-- C8 (amended): in `esp32_loom_compute_activation_dynamics` a node's new
activation is not computed from its own outgoing edges — the stored edges
carry no source, so the inner loop runs over ALL edges of the topology.  With
no edges, every node is left unchanged; otherwise node `i`'s final vector is
its step applied to the store in which nodes `0..i-1` are already updated
(in-place sequential update): activation blended `90%` previous plus `10%`
of the all-edges aggregate `Σ act(target)·(weight/127) / num_edges`, clamped
to `[0, 1]`. -/
theorem C8_activation_all_edges :
    (∀ t : Esp32LoomTopology, t.num_edges = 0 →
        esp32_loom_compute_activation_dynamics t = t) ∧
    (∀ (t : Esp32LoomTopology) (i : ℕ), i < t.num_nodes → 0 < t.num_edges →
        (esp32_loom_compute_activation_dynamics t).nodes i
          = Function.update (esp32ActUpTo t i i) E.VEC_ACTIVATION
              (max 0 (min 1 (esp32ActUpTo t i i E.VEC_ACTIVATION * 0.9 +
                esp32EdgeInputSum t (esp32ActUpTo t i) / (t.num_edges : ℝ) * 0.1)))) := by
  constructor
  · intro t ht
    have hz : (List.range t.num_nodes).foldl (esp32ActStep t) t.nodes = t.nodes := by
      refine foldlPreserve _ (fun s : ℕ → Vec32 => s = t.nodes) _ _ rfl fun u k hu => ?_
      simp only [esp32ActStep, ht]
      rw [if_neg (lt_irrefl 0)]
      exact hu
    unfold esp32_loom_compute_activation_dynamics
    rw [hz]
  · intro t i hi he
    show ((List.range t.num_nodes).foldl (esp32ActStep t) t.nodes) i = _
    rw [esp32ActDyn_decompose t t.num_nodes i hi]
    simp only [esp32ActStep]
    rw [if_pos he]
    unfold updComp
    rw [Function.update_same]

/-- C8 counterexample refuting the claim as stated: in the construction of
`esp32DynTopo` node 2 is never a source (`create_edge(0,1,·)` and
`create_edge(1,2,·)` only), so under the claim its activation (0) must stay
unchanged; the code instead aggregates both edges for every node, and node
2's activation becomes `0.0475` after one pass (reading node 1's
already-updated activation `0.95`). -/
theorem C8_activation_counterexample :
    (esp32_loom_compute_activation_dynamics esp32DynTopo).nodes 2 E.VEC_ACTIVATION = 0.0475 ∧
    esp32DynTopo.nodes 2 E.VEC_ACTIVATION = 0 := by
  obtain ⟨hnodes, hnn, hne, _, _⟩ := esp32DynTopo_fields
  have hs0_0 : esp32DynTopo.nodes 0 E.VEC_ACTIVATION = 0 := by
    rw [hnodes]
    simp [esp32DynBase, zeroVec32]
  have hs0_1 : esp32DynTopo.nodes 1 E.VEC_ACTIVATION = 1 := by
    rw [hnodes]
    simp [esp32DynBase, actOneVec32, E.VEC_ACTIVATION]
  have hs0_2 : esp32DynTopo.nodes 2 E.VEC_ACTIVATION = 0 := by
    rw [hnodes]
    simp [esp32DynBase, zeroVec32]
  set s0 := esp32DynTopo.nodes with hs0
  set s1 := esp32ActStep esp32DynTopo s0 0 with hs1
  set s2 := esp32ActStep esp32DynTopo s1 1 with hs2
  set s3 := esp32ActStep esp32DynTopo s2 2 with hs3
  have hs1_1 : s1 1 E.VEC_ACTIVATION = 1 := by
    rw [hs1, esp32DynTopo_step]
    rw [updComp_other _ _ _ _ _ (by decide)]
    exact hs0_1
  have hs1_2 : s1 2 E.VEC_ACTIVATION = 0 := by
    rw [hs1, esp32DynTopo_step]
    rw [updComp_other _ _ _ _ _ (by decide)]
    exact hs0_2
  have hs2_1 : s2 1 E.VEC_ACTIVATION = 0.95 := by
    rw [hs2, esp32DynTopo_step, updComp_atIdx, hs1_1, hs1_2]
    norm_num
  have hs2_2 : s2 2 E.VEC_ACTIVATION = 0 := by
    rw [hs2, esp32DynTopo_step]
    rw [updComp_other _ _ _ _ _ (by decide)]
    exact hs1_2
  have hs3_2 : s3 2 E.VEC_ACTIVATION = 0.0475 := by
    rw [hs3, esp32DynTopo_step, updComp_atIdx, hs2_1, hs2_2]
    norm_num
  refine ⟨?_, hs0_2⟩
  show ((List.range esp32DynTopo.num_nodes).foldl (esp32ActStep esp32DynTopo) s0) 2
      E.VEC_ACTIVATION = 0.0475
  rw [hnn, show List.range 3 = [0, 1, 2] from rfl]
  simp only [List.foldl_cons, List.foldl_nil]
  rw [← hs1, ← hs2, ← hs3]
  exact hs3_2

/-- Witness for the amended C8: the empty-edge case at a concrete topology,
and the per-node characterization at node 0 of the C8 topology. -/
theorem C8_activation_all_edges_witness :
    esp32QuietTopo.num_edges = 0 ∧
    esp32_loom_compute_activation_dynamics esp32QuietTopo = esp32QuietTopo ∧
    (0 < esp32DynTopo.num_nodes ∧ 0 < esp32DynTopo.num_edges) ∧
    (esp32_loom_compute_activation_dynamics esp32DynTopo).nodes 0
      = Function.update (esp32ActUpTo esp32DynTopo 0 0) E.VEC_ACTIVATION
          (max 0 (min 1 (esp32ActUpTo esp32DynTopo 0 0 E.VEC_ACTIVATION * 0.9 +
            esp32EdgeInputSum esp32DynTopo (esp32ActUpTo esp32DynTopo 0) /
              (esp32DynTopo.num_edges : ℝ) * 0.1))) := by
  obtain ⟨_, hnn, hne, _, _⟩ := esp32DynTopo_fields
  refine ⟨rfl, C8_activation_all_edges.1 _ rfl, ⟨?_, ?_⟩, ?_⟩
  · rw [hnn]
    norm_num
  · rw [hne]
    norm_num
  · exact C8_activation_all_edges.2 esp32DynTopo 0 (by rw [hnn]; norm_num)
      (by rw [hne]; norm_num)

/-- C4: for the generic kernel `loom_create_edge` on a well-formed CSR matrix
with in-range source and target, if the target is already present in the
source's row the call overwrites that edge's weight in place (edge count, row
pointers and column indices unchanged); otherwise it inserts a new edge: the
edge count grows by one, the CSR invariants are preserved, every row pointer
after the source is incremented by one (the ones up to the source unchanged),
the source's column row gains exactly the target at its end, and every other
row is unchanged.  (The ESP32 port's duplicate scan ignores the source, so
this claim fails there — see the counterexample.) -/
theorem C4_edge_upsert (t : LoomTopology) (source target : ℕ) (weight : ℝ)
    (hwf : CSRWF t) (hs : source < t.num_nodes) (ht : target < t.num_nodes) :
    (target ∈ kernRowCols t source →
      (loom_create_edge t source target weight).edge_matrix.num_edges
          = t.edge_matrix.num_edges ∧
      (loom_create_edge t source target weight).edge_matrix.row_ptr
          = t.edge_matrix.row_ptr ∧
      (loom_create_edge t source target weight).edge_matrix.col_idx
          = t.edge_matrix.col_idx ∧
      ∃ i, t.edge_matrix.row_ptr source ≤ i ∧ i < t.edge_matrix.row_ptr (source + 1) ∧
        t.edge_matrix.col_idx i = target ∧
        (loom_create_edge t source target weight).edge_matrix.values
          = Function.update t.edge_matrix.values i weight) ∧
    (target ∉ kernRowCols t source →
      (loom_create_edge t source target weight).edge_matrix.num_edges
          = t.edge_matrix.num_edges + 1 ∧
      CSRWF (loom_create_edge t source target weight) ∧
      (∀ j, j ≤ source →
        (loom_create_edge t source target weight).edge_matrix.row_ptr j
          = t.edge_matrix.row_ptr j) ∧
      (∀ j, source < j → j ≤ t.num_nodes →
        (loom_create_edge t source target weight).edge_matrix.row_ptr j
          = t.edge_matrix.row_ptr j + 1) ∧
      kernRowCols (loom_create_edge t source target weight) source
          = kernRowCols t source ++ [target] ∧
      (∀ s, s < t.num_nodes → s ≠ source →
        kernRowCols (loom_create_edge t source target weight) s
          = kernRowCols t s)) := by
  constructor
  · intro hmem
    have hre_rs : t.edge_matrix.row_ptr source ≤ t.edge_matrix.row_ptr (source + 1) :=
      hwf.1 source (source + 1) (Nat.le_succ source) hs
    have hne : kernFindInRow t.edge_matrix (t.edge_matrix.row_ptr source)
        (t.edge_matrix.row_ptr (source + 1)) target ≠ none := by
      obtain ⟨i, h1, h2, h3⟩ := (kernRowCols_mem t source target).mp hmem
      intro hcontra
      exact (kernFindInRow_none_iff t.edge_matrix _ _ target).mp hcontra i h1 h2 h3
    obtain ⟨j, hj⟩ := Option.ne_none_iff_exists'.mp hne
    have hj' := hj
    simp only [kernFindInRow] at hj'
    have hjmem := List.mem_of_find?_eq_some hj'
    have hjval := List.find?_some hj'
    have hm := List.mem_range'_1.mp hjmem
    have hjcol : t.edge_matrix.col_idx j = target := by simpa using hjval
    have heq := kern_create_edge_found t source target weight j hj
    refine ⟨?_, ?_, ?_, ⟨j, hm.1, by omega, hjcol, ?_⟩⟩ <;> rw [heq]
  · intro hnot
    have hf : kernFindInRow t.edge_matrix (t.edge_matrix.row_ptr source)
        (t.edge_matrix.row_ptr (source + 1)) target = none := by
      rw [kernFindInRow_none_iff]
      intro i h1 h2 hc
      exact hnot ((kernRowCols_mem t source target).mpr ⟨i, h1, h2, hc⟩)
    obtain ⟨hnum, hnn, hrp, hcol⟩ := kern_create_edge_fields t source target weight hf
    refine ⟨hnum, ?_, fun j hj => ?_, fun j hj1 hj2 => ?_, ?_, fun s h1 h2 => ?_⟩
    · simp only [CSRWF]
      refine ⟨fun i j hij hj => ?_, ?_, fun s hsn => ?_⟩
      · rw [hnn] at hj
        rw [hrp i, hrp j]
        have hm := hwf.1 i j hij hj
        split_ifs <;> omega
      · rw [hnn, hrp, hnum]
        rw [if_pos ⟨hs, le_refl _⟩, hwf.2.1]
      · rw [hnn] at hsn
        rw [kern_create_edge_rowCols t source target weight hwf hs hf s hsn]
        by_cases hss : s = source
        · rw [if_pos hss]
          have h1 := hwf.2.2 source hs
          simp [List.nodup_append, List.disjoint_singleton, h1, hnot]
        · rw [if_neg hss]
          exact hwf.2.2 s hsn
    · rw [hrp]; rw [if_neg (by omega)]
    · rw [hrp]; rw [if_pos ⟨by omega, hj2⟩]
    · have h := kern_create_edge_rowCols t source target weight hwf hs hf source hs
      rw [if_pos rfl] at h
      exact h
    · have h := kern_create_edge_rowCols t source target weight hwf hs hf s h1
      rw [if_neg h2] at h
      exact h

/-- Counterexample to C4 at the ESP32 port: its edge records store no source,
and the duplicate scan in `esp32_loom_create_edge` matches ANY stored edge with
the same target.  Starting from the empty three-node topology, `create_edge(0,
1, 1.0, 0)` inserts one edge; the later call `create_edge(2, 1, 1.0, 7)` — no
edge from node 2 to node 1 exists — reports success without inserting: the
edge count stays 1 and the existing edge's flags are overwritten with 7. -/
theorem C4_edge_upsert_counterexample :
    ((esp32_loom_create_edge esp32DynBase 0 1 1 0).2).num_edges = 1 ∧
    (esp32_loom_create_edge
        (esp32_loom_create_edge esp32DynBase 0 1 1 0).2 2 1 1 7).1 = EspErr.espOk ∧
    ((esp32_loom_create_edge
        (esp32_loom_create_edge esp32DynBase 0 1 1 0).2 2 1 1 7).2).num_edges = 1 ∧
    (((esp32_loom_create_edge
        (esp32_loom_create_edge esp32DynBase 0 1 1 0).2 2 1 1 7).2).edges 0).flags = 7 :=
  ⟨rfl, rfl, rfl, rfl⟩

/-- Witness for C4 at the concrete topology `kernCapTopo` (empty edge matrix,
4 nodes), inserting the edge `0 → 1`. -/
theorem C4_edge_upsert_witness :
    CSRWF kernCapTopo ∧ 0 < kernCapTopo.num_nodes ∧ 1 < kernCapTopo.num_nodes ∧
    ((1 ∈ kernRowCols kernCapTopo 0 →
      (loom_create_edge kernCapTopo 0 1 1).edge_matrix.num_edges
          = kernCapTopo.edge_matrix.num_edges ∧
      (loom_create_edge kernCapTopo 0 1 1).edge_matrix.row_ptr
          = kernCapTopo.edge_matrix.row_ptr ∧
      (loom_create_edge kernCapTopo 0 1 1).edge_matrix.col_idx
          = kernCapTopo.edge_matrix.col_idx ∧
      ∃ i, kernCapTopo.edge_matrix.row_ptr 0 ≤ i ∧
        i < kernCapTopo.edge_matrix.row_ptr (0 + 1) ∧
        kernCapTopo.edge_matrix.col_idx i = 1 ∧
        (loom_create_edge kernCapTopo 0 1 1).edge_matrix.values
          = Function.update kernCapTopo.edge_matrix.values i 1) ∧
    (1 ∉ kernRowCols kernCapTopo 0 →
      (loom_create_edge kernCapTopo 0 1 1).edge_matrix.num_edges
          = kernCapTopo.edge_matrix.num_edges + 1 ∧
      CSRWF (loom_create_edge kernCapTopo 0 1 1) ∧
      (∀ j, j ≤ 0 →
        (loom_create_edge kernCapTopo 0 1 1).edge_matrix.row_ptr j
          = kernCapTopo.edge_matrix.row_ptr j) ∧
      (∀ j, 0 < j → j ≤ kernCapTopo.num_nodes →
        (loom_create_edge kernCapTopo 0 1 1).edge_matrix.row_ptr j
          = kernCapTopo.edge_matrix.row_ptr j + 1) ∧
      kernRowCols (loom_create_edge kernCapTopo 0 1 1) 0
          = kernRowCols kernCapTopo 0 ++ [1] ∧
      (∀ s, s < kernCapTopo.num_nodes → s ≠ 0 →
        kernRowCols (loom_create_edge kernCapTopo 0 1 1) s
          = kernRowCols kernCapTopo s))) := by
  have hwf : CSRWF kernCapTopo := by
    refine ⟨fun i j hij hj => ?_, ?_, fun s hsn => ?_⟩
    · simp [kernCapTopo]
    · rfl
    · simp [kernRowCols, kernCapTopo]
  have h0 : (0 : ℕ) < kernCapTopo.num_nodes := by simp [kernCapTopo]
  have h1 : (1 : ℕ) < kernCapTopo.num_nodes := by simp [kernCapTopo]
  exact ⟨hwf, h0, h1, C4_edge_upsert kernCapTopo 0 1 1 hwf h0 h1⟩

end Loom
